import Mathlib

/-!
Verification of the obpi_cde_backend session engine, virtual filesystem and
PTY bridge.  The Rust sources (`vfs.rs`, `session.rs`, `pty_handler.rs`,
`protocol.rs`, `db.rs`) are shallowly embedded: strings stay strings, byte
buffers become `List Nat`, SQL tables become lists of rows, and the async
handlers become pure state-passing functions.  Timestamps and freshly
generated blob names are passed in explicitly so that every definition is
executable.
-/

namespace Obpi

/-! ### String helpers

Rust's `str::split('/')`, `str::trim`, `str::starts_with` and
`str::split_whitespace` are re-implemented by structural recursion over the
character list so that all path handling is kernel-computable.  The
whitespace set is the ASCII subset (space, tab, CR, LF), which agrees with
Rust's Unicode definition on all inputs appearing in this development. -/

/-- `charsPrefix pre s` is true iff `pre` is a prefix of `s` (Rust
`str::starts_with` on the underlying characters). -/
def charsPrefix : List Char → List Char → Bool
  | [], _ => true
  | _ :: _, [] => false
  | p :: ps, c :: cs => p == c && charsPrefix ps cs

/-- Rust `str::starts_with`. -/
def strStartsWith (s pre : String) : Bool := charsPrefix pre.data s.data

/-- Drop the first `n` characters of a string (Rust byte slicing `&s[n..]`,
used only where the dropped prefix is ASCII). -/
def strDrop (s : String) (n : Nat) : String := String.mk (s.data.drop n)

def isWs (c : Char) : Bool := c == ' ' || c == '\t' || c == '\n' || c == '\r'

/-- Rust `str::trim` (ASCII whitespace). -/
def rustTrim (s : String) : String :=
  String.mk (((s.data.dropWhile isWs).reverse.dropWhile isWs).reverse)

/-- Helper for `splitWhitespace`: accumulates the current word. -/
def splitWsAux : List Char → List Char → List String
  | [], [] => []
  | [], acc => [String.mk acc.reverse]
  | c :: rest, acc =>
    if isWs c then
      if acc.isEmpty then splitWsAux rest []
      else String.mk acc.reverse :: splitWsAux rest []
    else splitWsAux rest (c :: acc)

/-- Rust `str::split_whitespace` (no empty items). -/
def splitWhitespace (s : String) : List String := splitWsAux s.data []

/-- Helper for splitting on `'/'`: every separator produces a boundary, so
empty segments do appear (they are filtered by `pathComponentsOf`). -/
def splitSlashAux : List Char → List Char → List String
  | [], acc => [String.mk acc.reverse]
  | c :: rest, acc =>
    if c == '/' then String.mk acc.reverse :: splitSlashAux rest []
    else splitSlashAux rest (c :: acc)

/-- Rust `path.split('/').filter(|s| !s.is_empty())`, the component view used
by `get_path_id`, and also the `Path::components` view after dropping
`RootDir` markers. -/
def pathComponentsOf (p : String) : List String :=
  (splitSlashAux p.data []).filter (fun s => s ≠ "")

/-! ### `vfs::resolve_path` (vfs.rs lines 201-226) -/

/-- One step of the normalization loop in `resolve_path`: a `..` component
pops the stack (`Vec::pop`, a no-op on an empty stack), a `.` component
(`Component::CurDir`) is skipped, anything else is pushed. -/
def normStep (acc : List String) (seg : String) : List String :=
  if seg = ".." then acc.dropLast
  else if seg = "." then acc
  else acc ++ [seg]

/-- The full normalization pass of `resolve_path`. -/
def normalizeSegments (segs : List String) : List String :=
  segs.foldl normStep []

/-- Characters of the segments joined by `'/'`. -/
def joinSegsChars : List String → List Char
  | [] => []
  | [s] => s.data
  | s :: rest => s.data ++ '/' :: joinSegsChars rest

/-- Render a component stack as an absolute path: `PathBuf::from("/")`
followed by one `push` per segment. -/
def renderAbs (segs : List String) : String :=
  String.mk ('/' :: joinSegsChars segs)

/-- Rust `Path::join` for slash-separated strings: an absolute right operand
replaces the base. -/
def joinAbs (base target : String) : String :=
  if strStartsWith target "/" then target else base ++ "/" ++ target

/-- `vfs::resolve_path`: pick the base according to the `~` rules, then
normalize. -/
def resolve_path (cwd target home : String) : String :=
  let joined :=
    if strStartsWith target "/" then target
    else if target = "~" then home
    else if strStartsWith target "~/" then joinAbs home (strDrop target 2)
    else joinAbs cwd target
  renderAbs (normalizeSegments (pathComponentsOf joined))

/-! ### Data model

One row of the `files` table (db migrations define the schema; the columns
are those read and written by `vfs.rs`).  `parent = none` encodes the SQL
`NULL` root sentinel.  Timestamps are abstract `Nat` ticks. -/

structure FileRow where
  id : Nat
  owner : Nat
  parent : Option Nat
  name : String
  nodeType : String
  diskPath : Option String
  originalPath : String
  size : Nat
  updatedAt : Nat
  isTrashed : Bool
  trashedAt : Option Nat
deriving DecidableEq

abbrev Store := List FileRow

/-- The blob store: `disk_path ↦ bytes` (bytes as `Nat`s below 256). -/
abbrev Disk := List (String × List Nat)

structure VfsState where
  store : Store
  disk : Disk
deriving DecidableEq

/-- Primary-key uniqueness of `files.id` (SQLite rowid). -/
def distinctIds (s : Store) : Prop := (s.map (fun r => r.id)).Nodup

instance (s : Store) : Decidable (distinctIds s) := by
  unfold distinctIds; infer_instance

def diskRead (d : Disk) (p : String) : Option (List Nat) :=
  (d.find? (fun e => e.1 == p)).map (fun e => e.2)

/-- `tokio::fs::write`: create-or-truncate. -/
def diskWrite (d : Disk) (p : String) (bs : List Nat) : Disk :=
  (p, bs) :: d.filter (fun e => !(e.1 == p))

/-- `tokio::fs::remove_file` (best-effort callers ignore the result). -/
def diskRemove (d : Disk) (p : String) : Disk :=
  d.filter (fun e => !(e.1 == p))

/-! ### base64 (the `base64` crate's standard padded alphabet)

`base64::encode` / `base64::decode` are an external crate; the encoder below
is the RFC 4648 standard encoding the crate produces, and the decoder is its
restriction to canonical padded input (the only shape round-tripping
theorems need: every string the encoder emits is canonical). -/

def b64Char (n : Nat) : Char :=
  if n < 26 then Char.ofNat (65 + n)
  else if n < 52 then Char.ofNat (97 + (n - 26))
  else if n < 62 then Char.ofNat (48 + (n - 52))
  else if n = 62 then '+'
  else '/'

def base64Chunks : List Nat → List Char
  | [] => []
  | [a] => [b64Char (a / 4), b64Char (a % 4 * 16), '=', '=']
  | [a, b] => [b64Char (a / 4), b64Char (a % 4 * 16 + b / 16), b64Char (b % 16 * 4), '=']
  | a :: b :: c :: rest =>
    b64Char (a / 4) :: b64Char (a % 4 * 16 + b / 16) :: b64Char (b % 16 * 4 + c / 64) ::
      b64Char (c % 64) :: base64Chunks rest

def base64Encode (bs : List Nat) : String := String.mk (base64Chunks bs)

def b64Val (c : Char) : Option Nat :=
  if 'A' ≤ c ∧ c ≤ 'Z' then some (c.toNat - 65)
  else if 'a' ≤ c ∧ c ≤ 'z' then some (c.toNat - 97 + 26)
  else if '0' ≤ c ∧ c ≤ '9' then some (c.toNat - 48 + 52)
  else if c = '+' then some 62
  else if c = '/' then some 63
  else none

def base64DecodeChunks : List Char → Option (List Nat)
  | [] => some []
  | c1 :: c2 :: c3 :: c4 :: rest =>
    match b64Val c1, b64Val c2 with
    | some v1, some v2 =>
      if c3 = '=' then
        if c4 = '=' ∧ rest = [] ∧ v2 % 16 = 0 then some [v1 * 4 + v2 / 16] else none
      else
        match b64Val c3 with
        | some v3 =>
          if c4 = '=' then
            if rest = [] ∧ v3 % 4 = 0 then some [v1 * 4 + v2 / 16, v2 % 16 * 16 + v3 / 4]
            else none
          else
            match b64Val c4 with
            | some v4 =>
              (base64DecodeChunks rest).map
                (fun bs =>
                  (v1 * 4 + v2 / 16) :: (v2 % 16 * 16 + v3 / 4) :: (v3 % 4 * 64 + v4) :: bs)
            | none => none
        | none => none
    | _, _ => none
  | _ => none

def base64Decode (s : String) : Option (List Nat) := base64DecodeChunks s.data

/-! ### `vfs::get_path_id` (vfs.rs lines 182-199)

The Rust function returns `Result<Option<i64>>`: database failures aside, a
missing component produces `Ok(None)` — the *same* value that denotes the
root.  The embedding keeps that conflation: `none` means "root or not
found". -/

/-- The `SELECT id FROM files WHERE owner_id = ? AND parent_id IS ? AND
name = ? AND is_trashed = FALSE` point query (`fetch_optional`: first
matching row). -/
def childLookup (s : Store) (u : Nat) (parent : Option Nat) (nm : String) : Option FileRow :=
  s.find? (fun r => r.owner == u && r.parent == parent && r.name == nm && !r.isTrashed)

def getPathIdAux (s : Store) (u : Nat) : Option Nat → List String → Option Nat
  | cur, [] => cur
  | cur, comp :: rest =>
    match childLookup s u cur comp with
    | none => none
    | some r => getPathIdAux s u (some r.id) rest

def get_path_id (s : Store) (u : Nat) (p : String) : Option Nat :=
  getPathIdAux s u none (pathComponentsOf p)

/-! ### Wire items (protocol.rs) -/

structure FileNode where
  name : String
  nodeType : String
  size : Nat
  updatedAt : Nat
deriving DecidableEq

structure TrashedFileNode where
  id : Nat
  name : String
  originalPath : String
  trashedAt : Option Nat
deriving DecidableEq

/-- SQLite's binary collation on TEXT values: bytewise comparison of the
UTF-8 encodings, which coincides with lexicographic comparison of the
scalar values. -/
def lexLtChars : List Char → List Char → Bool
  | [], [] => false
  | [], _ :: _ => true
  | _ :: _, [] => false
  | a :: as, b :: bs =>
    if a.toNat < b.toNat then true
    else if b.toNat < a.toNat then false
    else lexLtChars as bs

def strLtB (a b : String) : Bool := lexLtChars a.data b.data

/-- `ORDER BY node_type DESC, name ASC` under SQLite's binary collation.
Note `"dir" < "file"` bytewise, so the *descending* type key puts files
before directories. -/
def listOrd (a b : FileNode) : Prop :=
  strLtB b.nodeType a.nodeType = true ∨
    (a.nodeType = b.nodeType ∧ strLtB b.name a.name = false)

instance : DecidableRel listOrd := fun a b => by
  unfold listOrd; infer_instance

/-- `ORDER BY trashed_at DESC` (SQLite puts `NULL` last in descending
order, i.e. `none` is the smallest key). -/
def optNatLE : Option Nat → Option Nat → Prop
  | none, _ => True
  | some _, none => False
  | some x, some y => x ≤ y

instance : DecidableRel optNatLE := fun a b => by
  cases a <;> cases b <;> unfold optNatLE <;> infer_instance

def trashOrd (a b : TrashedFileNode) : Prop := optNatLE b.trashedAt a.trashedAt

instance : DecidableRel trashOrd := fun a b => by
  unfold trashOrd; infer_instance

/-! ### The VFS operations (vfs.rs)

All database errors other than the ones the code produces itself are
surfaced as their sqlx/anyhow message text; the three fixed messages
below stand for the library-generated ones. -/

def sqlxNoRows : String := "no rows returned by a query that expected to return at least one row"

def sqlxNullDecode : String := "UnexpectedNullError"

def fsNotFound : String := "No such file or directory (os error 2)"

/-- `vfs::list_directory` (lines 11-20).  The resolved id is used as the
parent filter directly — note that a path that fails to resolve yields
`none`, i.e. the root listing. -/
def list_directory (w : VfsState) (u : Nat) (pathStr : String) : List FileNode :=
  let parentId := get_path_id w.store u pathStr
  let children := w.store.filter (fun r => r.owner == u && r.parent == parentId && !r.isTrashed)
  List.insertionSort listOrd
    (children.map (fun r => FileNode.mk r.name r.nodeType r.size r.updatedAt))

/-- `vfs::read_file_content` (lines 22-32).  A directory row has `NULL`
`disk_path`, which fails to decode into the non-nullable `String` the query
expects. -/
def read_file_content (w : VfsState) (u : Nat) (pathStr : String) : Except String String :=
  match get_path_id w.store u pathStr with
  | none => .error "File not found"
  | some fid =>
    match w.store.find? (fun r => r.id == fid && r.owner == u && r.nodeType == "file") with
    | none => .error sqlxNoRows
    | some r =>
      match r.diskPath with
      | none => .error sqlxNullDecode
      | some dp =>
        match diskRead w.disk dp with
        | none => .error fsNotFound
        | some bs => .ok (base64Encode bs)

/-- `vfs::write_file_content` (lines 34-55): resolve, decode the base64
payload, fetch `disk_path` by id, then overwrite the blob and update
`size`/`updated_at`. -/
def write_file_content (w : VfsState) (u : Nat) (pathStr : String) (b64 : String) (now : Nat) :
    VfsState × Except String Unit :=
  match get_path_id w.store u pathStr with
  | none => (w, .error "File not found")
  | some fid =>
    match base64Decode b64 with
    | none => (w, .error "Invalid byte")
    | some content =>
      match w.store.find? (fun r => r.id == fid) with
      | none => (w, .error sqlxNoRows)
      | some r =>
        match r.diskPath with
        | some dp =>
          ({ store := w.store.map (fun q =>
               if q.id == fid then { q with size := content.length, updatedAt := now } else q),
             disk := diskWrite w.disk dp content }, .ok ())
        | none => (w, .error "Node is a directory, not a file")

/-- `vfs::create_node` (lines 57-88).  `Path::file_name`/`Path::parent` are
modelled on the slash-normalized absolute paths the session layer produces
(`resolve_path` output): the last component is the name (`None` for the
root or a trailing `..`), the rest is the parent path.  The fresh SQLite
rowid and the fresh blob name (a UUID in the source) are explicit
arguments; insert-time column defaults (`size 0`, not trashed) come from
the schema migrations, which live outside the core. -/
def create_node (w : VfsState) (u : Nat) (pathStr : String) (nodeType : String)
    (freshId : Nat) (freshBlob : String) : VfsState × Except String Unit :=
  let comps := pathComponentsOf pathStr
  match comps.getLast? with
  | none => (w, .error "Invalid path or name")
  | some nm =>
    if nm = ".." then (w, .error "Invalid path or name")
    else
      let parentId := getPathIdAux w.store u none comps.dropLast
      let dp : Option String := if nodeType = "file" then some freshBlob else none
      let disk := if nodeType = "file" then diskWrite w.disk freshBlob [] else w.disk
      let row : FileRow :=
        ⟨freshId, u, parentId, nm, nodeType, dp, pathStr, 0, 0, false, none⟩
      (⟨w.store ++ [row], disk⟩, .ok ())

/-- `vfs::move_node` (lines 159-180). -/
def move_node (w : VfsState) (u : Nat) (oldPathStr newPathStr : String) (now : Nat) :
    VfsState × Except String Unit :=
  match get_path_id w.store u oldPathStr with
  | none => (w, .error "Source not found")
  | some nodeId =>
    let newComps := pathComponentsOf newPathStr
    match newComps.getLast? with
    | none => (w, .error "Invalid new path")
    | some newName =>
      if newName = ".." then (w, .error "Invalid new path")
      else
        let newParentId := getPathIdAux w.store u none newComps.dropLast
        ({ w with store := w.store.map (fun q =>
             if q.id == nodeId && q.owner == u then
               { q with
                 parent := newParentId, name := newName, originalPath := newPathStr,
                 updatedAt := now }
             else q) }, .ok ())

/-- `vfs::trash_node` (lines 90-99). -/
def trash_node (w : VfsState) (u : Nat) (pathStr : String) (now : Nat) :
    VfsState × Except String Unit :=
  match get_path_id w.store u pathStr with
  | none => (w, .error "Node not found")
  | some nodeId =>
    ({ w with store := w.store.map (fun q =>
         if q.id == nodeId && q.owner == u then
           { q with isTrashed := true, trashedAt := some now }
         else q) }, .ok ())

/-- `vfs::list_trash` (lines 101-109). -/
def list_trash (w : VfsState) (u : Nat) : List TrashedFileNode :=
  List.insertionSort trashOrd
    ((w.store.filter (fun r => r.owner == u && r.isTrashed)).map
      (fun r => TrashedFileNode.mk r.id r.name r.originalPath r.trashedAt))

/-- `vfs::restore_node` (lines 111-124): the lookup is owner-scoped
(`fetch_one`, an error when no row matches) but the `UPDATE` filters on
`id` alone, and nothing checks `is_trashed`. -/
def restore_node (w : VfsState) (u : Nat) (nodeId : Nat) : VfsState × Except String String :=
  match w.store.find? (fun r => r.id == nodeId && r.owner == u) with
  | none => (w, .error sqlxNoRows)
  | some r =>
    ({ w with store := w.store.map (fun q =>
         if q.id == nodeId then { q with isTrashed := false, trashedAt := none } else q) },
      .ok r.originalPath)

/-- `vfs::permanently_delete_node` (lines 126-140): owner- and
trash-scoped lookup; absent row is a silent no-op; then best-effort blob
removal and a `DELETE` filtered on `id` alone. -/
def permanently_delete_node (w : VfsState) (u : Nat) (nodeId : Nat) :
    VfsState × Except String Unit :=
  match w.store.find? (fun r => r.id == nodeId && r.owner == u && r.isTrashed) with
  | none => (w, .ok ())
  | some r =>
    ({ store := w.store.filter (fun q => !(q.id == nodeId)),
       disk := match r.diskPath with
               | some dp => diskRemove w.disk dp
               | none => w.disk }, .ok ())

/-- One loop iteration of `vfs::empty_trash`: best-effort blob removal,
then `DELETE FROM files WHERE id = ?`. -/
def emptyTrashStep (st : VfsState) (r : FileRow) : VfsState :=
  VfsState.mk (st.store.filter (fun q => !(q.id == r.id)))
    (match r.diskPath with
     | some dp => diskRemove st.disk dp
     | none => st.disk)

/-- `vfs::empty_trash` (lines 142-157): select the owner's trashed rows,
then per row remove the blob and delete the row. -/
def empty_trash (w : VfsState) (u : Nat) : VfsState × Except String Unit :=
  ((w.store.filter (fun r => r.owner == u && r.isTrashed)).foldl emptyTrashStep w, .ok ())

/-! ### A uniform view of the ten VFS operations, for owner-scoping
statements. -/

inductive VfsOp
  | list (path : String)
  | read (path : String)
  | write (path : String) (content : String)
  | create (path : String) (nodeType : String)
  | move (oldPath newPath : String)
  | trash (path : String)
  | listTrash
  | restore (id : Nat)
  | delete (id : Nat)
  | emptyTrash
deriving DecidableEq

inductive VfsOut
  | listing (items : List FileNode)
  | contents (s : String)
  | done
  | restored (p : String)
  | trashListing (items : List TrashedFileNode)
  | failed (msg : String)
deriving DecidableEq

/-- Statement device for owner-scoping: the world as user `u` sees it —
only `u`'s rows (the blob store is shared by construction: blob names are
globally unique). -/
def restrictOwner (u : Nat) (w : VfsState) : VfsState :=
  ⟨w.store.filter (fun r => r.owner == u), w.disk⟩

def exceptOut : Except String Unit → VfsOut
  | .ok _ => .done
  | .error e => .failed e

def applyVfsOp (u now freshId : Nat) (freshBlob : String) (w : VfsState) :
    VfsOp → VfsState × VfsOut
  | .list p => (w, .listing (list_directory w u p))
  | .read p =>
    (w, match read_file_content w u p with
        | .ok s => .contents s
        | .error e => .failed e)
  | .write p c => let r := write_file_content w u p c now; (r.1, exceptOut r.2)
  | .create p t => let r := create_node w u p t freshId freshBlob; (r.1, exceptOut r.2)
  | .move po pn => let r := move_node w u po pn now; (r.1, exceptOut r.2)
  | .trash p => let r := trash_node w u p now; (r.1, exceptOut r.2)
  | .listTrash => (w, .trashListing (list_trash w u))
  | .restore i =>
    let r := restore_node w u i
    (r.1, match r.2 with
          | .ok p => .restored p
          | .error e => .failed e)
  | .delete i => let r := permanently_delete_node w u i; (r.1, exceptOut r.2)
  | .emptyTrash => let r := empty_trash w u; (r.1, exceptOut r.2)

/-! ### UTF-8 and the PTY reader task (pty_handler.rs)

`String::from_utf8` validates standard UTF-8 (no overlong forms, no
surrogates, maximum `U+10FFFF`).  Decoded text is represented by its list
of scalar values. -/

/-- Decode one scalar from a leading byte `b` and the remaining bytes:
returns the scalar and the unconsumed tail, or `none` for any sequence the
Rust validator rejects (stray continuation, overlong form, surrogate,
beyond `U+10FFFF`, truncation). -/
def utf8Split1 (b : Nat) (rest : List Nat) : Option (Nat × List Nat) :=
  if b < 0x80 then some (b, rest)
  else if b < 0xC2 then none
  else if b < 0xE0 then
    match rest with
    | b2 :: rest2 =>
      if 0x80 ≤ b2 ∧ b2 < 0xC0 then some ((b - 0xC0) * 64 + (b2 - 0x80), rest2) else none
    | [] => none
  else if b < 0xF0 then
    match rest with
    | b2 :: b3 :: rest3 =>
      if (if b = 0xE0 then 0xA0 ≤ b2 else 0x80 ≤ b2) ∧
          (if b = 0xED then b2 < 0xA0 else b2 < 0xC0) ∧ 0x80 ≤ b3 ∧ b3 < 0xC0 then
        some ((b - 0xE0) * 4096 + (b2 - 0x80) * 64 + (b3 - 0x80), rest3)
      else none
    | _ => none
  else if b < 0xF5 then
    match rest with
    | b2 :: b3 :: b4 :: rest4 =>
      if (if b = 0xF0 then 0x90 ≤ b2 else 0x80 ≤ b2) ∧
          (if b = 0xF4 then b2 < 0x90 else b2 < 0xC0) ∧
          0x80 ≤ b3 ∧ b3 < 0xC0 ∧ 0x80 ≤ b4 ∧ b4 < 0xC0 then
        some ((b - 0xF0) * 262144 + (b2 - 0x80) * 4096 + (b3 - 0x80) * 64 + (b4 - 0x80), rest4)
      else none
    | _ => none
  else none

/-- Fuelled decoding loop; every step consumes at least one byte, so fuel
equal to the byte count always suffices. -/
def utf8DecodeFuel : Nat → List Nat → Option (List Nat)
  | _, [] => some []
  | 0, _ :: _ => none
  | fuel + 1, b :: rest =>
    match utf8Split1 b rest with
    | some (c, rest2) => (utf8DecodeFuel fuel rest2).map (fun cs => c :: cs)
    | none => none

/-- Rust `String::from_utf8` as a whole-buffer decode to scalar values. -/
def utf8Decode (l : List Nat) : Option (List Nat) := utf8DecodeFuel l.length l

/-- A Unicode scalar value (what a Rust `char` holds). -/
def ScalarValue (c : Nat) : Prop := c < 0x110000 ∧ ¬(0xD800 ≤ c ∧ c < 0xE000)

instance (c : Nat) : Decidable (ScalarValue c) := by
  unfold ScalarValue; infer_instance

def utf8EncodeChar (c : Nat) : List Nat :=
  if c < 0x80 then [c]
  else if c < 0x800 then [0xC0 + c / 64, 0x80 + c % 64]
  else if c < 0x10000 then [0xE0 + c / 4096, 0x80 + c / 64 % 64, 0x80 + c % 64]
  else [0xF0 + c / 262144, 0x80 + c / 4096 % 64, 0x80 + c / 64 % 64, 0x80 + c % 64]

def utf8Encode (cs : List Nat) : List Nat :=
  cs.foldr (fun c acc => utf8EncodeChar c ++ acc) []

/-- One iteration of the PTY reader task (pty_handler.rs lines 32-44): the
bytes of one successful `master.read` are passed to `String::from_utf8`
whole; on success the text is sent as `PtyMessage::Output`, on failure
nothing is sent and nothing is buffered. -/
def ptyChunkOutput (chunk : List Nat) : Option (List Nat) := utf8Decode chunk

/-- The reader task over a whole sequence of read chunks. -/
def ptyReaderEvents (chunks : List (List Nat)) : List (List Nat) :=
  chunks.filterMap ptyChunkOutput

/-! ### Wire protocol (protocol.rs) and the session engine (session.rs) -/

structure UserInfo where
  id : Nat
  username : String
  role : String
deriving DecidableEq

inductive ClientRequestPayload
  | login (username password : String)
  | runCommand (command : String)
  | vfsList (path : String)
  | vfsReadFile (path : String)
  | vfsWriteFile (path : String) (content : String)
  | vfsCreateNode (path : String) (nodeType : String)
  | vfsMoveNode (oldPath newPath : String)
  | vfsTrashNode (path : String)
  | vfsListTrash
  | vfsRestoreNode (id : Nat)
  | vfsDeleteNode (id : Nat)
  | vfsEmptyTrash
deriving DecidableEq

structure ClientRequest where
  requestId : String
  payload : ClientRequestPayload
deriving DecidableEq

inductive ServerResponsePayload
  | loginSuccess (user : UserInfo)
  | error (message : String)
  | vfsListResponse (items : List FileNode)
  | vfsReadFileResponse (content : String)
  | success
  | vfsListTrashResponse (items : List TrashedFileNode)
deriving DecidableEq

inductive ServerPushPayload
  | terminalOutput (output : String)
  | vfsUpdate (path : String)
deriving DecidableEq

/-- An outbound frame: a response (correlated by `requestId`) or a push. -/
inductive ServerMessage
  | response (requestId : String) (payload : ServerResponsePayload)
  | push (payload : ServerPushPayload)
deriving DecidableEq

instance {ε α : Type} [DecidableEq ε] [DecidableEq α] : DecidableEq (Except ε α) := fun a b =>
  match a, b with
  | .ok x, .ok y => if h : x = y then isTrue (by rw [h]) else isFalse (by simp [h])
  | .ok _, .error _ => isFalse (by simp)
  | .error _, .ok _ => isFalse (by simp)
  | .error x, .error y => if h : x = y then isTrue (by rw [h]) else isFalse (by simp [h])

/-- An inbound websocket frame.  `serde_json` is external, so a text frame
carries its decode result against the request schema; `other` stands for
the ignored `Binary`/`Ping`/`Pong` variants. -/
inductive WsFrame
  | text (decoded : Except String ClientRequest)
  | close
  | other
deriving DecidableEq

/-- The loop-owned mutable session fields of `UserSession`. -/
structure SessionState where
  user : Option UserInfo
  cwd : String
deriving DecidableEq

/-- Ambient effects of one step: the credential check delegated to
`db::verify_password` (an external collaborator per the interface), the
outcome of `PtyHandler::spawn`, the clock, and the fresh id / blob name a
successful insert would use. -/
structure SessionEnv where
  verify : String → String → Option UserInfo
  spawnOk : Bool
  now : Nat
  freshId : Nat
  freshBlob : String

structure StepResult where
  state : SessionState
  world : VfsState
  outbox : List ServerMessage
  ptySent : List String
  closed : Bool
deriving DecidableEq

/-- `UserSession::handle_login` (session.rs lines 74-89). -/
def handle_login (env : SessionEnv) (st : SessionState)
    (reqId username password : String) : SessionState × List ServerMessage :=
  match env.verify username password with
  | some user =>
    if env.spawnOk then
      (⟨some user, "/home/" ++ user.username⟩,
       [.response reqId (.loginSuccess user)])
    else (st, [.response reqId (.error "Failed to start terminal session")])
  | none => (st, [.response reqId (.error "Invalid credentials")])

/-- `UserSession::handle_authenticated_request` (session.rs lines 91-177).
Returns the new session state, new VFS state, outbound messages in emission
order, and the texts queued to the PTY writer. -/
def handle_authenticated_request (env : SessionEnv) (st : SessionState) (w : VfsState)
    (user : UserInfo) (req : ClientRequest) :
    SessionState × VfsState × List ServerMessage × List String :=
  let home := "/home/" ++ user.username
  let rsv := fun p => resolve_path st.cwd p home
  match req.payload with
  | .runCommand command =>
    let st2 :=
      if strStartsWith (rustTrim command) "cd " then
        ⟨st.user, resolve_path st.cwd ((splitWhitespace (rustTrim command))[1]?.getD "~") home⟩
      else st
    (st2, w, [], [command ++ "\n"])
  | .vfsList p =>
    (st, w, [.response req.requestId (.vfsListResponse (list_directory w user.id (rsv p)))], [])
  | .vfsReadFile p =>
    match read_file_content w user.id (rsv p) with
    | .ok c => (st, w, [.response req.requestId (.vfsReadFileResponse c)], [])
    | .error e => (st, w, [.response req.requestId (.error e)], [])
  | .vfsWriteFile p c =>
    let rp := rsv p
    let res := write_file_content w user.id rp c env.now
    match res.2 with
    | .ok _ =>
      (st, res.1, [.response req.requestId .success, .push (.vfsUpdate rp)], [])
    | .error e => (st, res.1, [.response req.requestId (.error e)], [])
  | .vfsCreateNode p t =>
    let rp := rsv p
    let res := create_node w user.id rp t env.freshId env.freshBlob
    match res.2 with
    | .ok _ =>
      (st, res.1, [.response req.requestId .success, .push (.vfsUpdate rp)], [])
    | .error e => (st, res.1, [.response req.requestId (.error e)], [])
  | .vfsMoveNode po pn =>
    let ro := rsv po
    let rn := rsv pn
    let res := move_node w user.id ro rn env.now
    match res.2 with
    | .ok _ =>
      (st, res.1, [.response req.requestId .success,
        .push (.vfsUpdate ro), .push (.vfsUpdate rn)], [])
    | .error e => (st, res.1, [.response req.requestId (.error e)], [])
  | .vfsTrashNode p =>
    let rp := rsv p
    let res := trash_node w user.id rp env.now
    match res.2 with
    | .ok _ =>
      (st, res.1, [.response req.requestId .success, .push (.vfsUpdate rp)], [])
    | .error e => (st, res.1, [.response req.requestId (.error e)], [])
  | .vfsListTrash =>
    (st, w, [.response req.requestId (.vfsListTrashResponse (list_trash w user.id))], [])
  | .vfsRestoreNode nid =>
    let res := restore_node w user.id nid
    match res.2 with
    | .ok path =>
      (st, res.1, [.response req.requestId .success, .push (.vfsUpdate path)], [])
    | .error e => (st, res.1, [.response req.requestId (.error e)], [])
  | .vfsDeleteNode nid =>
    let res := permanently_delete_node w user.id nid
    match res.2 with
    | .ok _ => (st, res.1, [.response req.requestId .success], [])
    | .error e => (st, res.1, [.response req.requestId (.error e)], [])
  | .vfsEmptyTrash =>
    let res := empty_trash w user.id
    match res.2 with
    | .ok _ => (st, res.1, [.response req.requestId .success], [])
    | .error e => (st, res.1, [.response req.requestId (.error e)], [])
  | .login _ _ =>
    (st, w, [.response req.requestId (.error "Unsupported action")], [])

/-- `UserSession::handle_client_message` (session.rs lines 51-72).
`closed = true` corresponds to the `Err(())` that breaks the event loop. -/
def handle_client_message (env : SessionEnv) (st : SessionState) (w : VfsState)
    (frame : WsFrame) : StepResult :=
  match frame with
  | .text (.ok req) =>
    match st.user with
    | none =>
      match req.payload with
      | .login username password =>
        let r := handle_login env st req.requestId username password
        ⟨r.1, w, r.2, [], false⟩
      | _ =>
        ⟨st, w, [.response req.requestId (.error "Authentication required")], [], false⟩
    | some user =>
      let r := handle_authenticated_request env st w user req
      ⟨r.1, r.2.1, r.2.2.1, r.2.2.2, false⟩
  | .text (.error e) =>
    ⟨st, w, [.response "unknown" (.error ("Invalid request format: " ++ e))], [], false⟩
  | .close => ⟨st, w, [], [], true⟩
  | .other => ⟨st, w, [], [], false⟩

/-! ## Theorems -/

theorem string_eq_of_data (a b : String) (h : a.data = b.data) : a = b := by
  cases a; cases b
  exact congrArg String.mk (by simpa using h)

theorem lexLtChars_asymm :
    ∀ as bs, lexLtChars as bs = true → lexLtChars bs as = false
  | [], [] => by simp [lexLtChars]
  | [], _ :: _ => by simp [lexLtChars]
  | _ :: _, [] => by simp [lexLtChars]
  | a :: as, b :: bs => by
    intro h
    simp only [lexLtChars] at h ⊢
    by_cases h1 : a.toNat < b.toNat
    · rw [if_neg (by omega : ¬ b.toNat < a.toNat), if_pos h1]
    · by_cases h2 : b.toNat < a.toNat
      · rw [if_neg h1, if_pos h2] at h
        exact absurd h (by simp)
      · rw [if_neg h1, if_neg h2] at h
        rw [if_neg h2, if_neg h1]
        exact lexLtChars_asymm as bs h

theorem lexLtChars_total :
    ∀ as bs, lexLtChars as bs = true ∨ lexLtChars bs as = true ∨ as = bs
  | [], [] => by simp [lexLtChars]
  | [], _ :: _ => by simp [lexLtChars]
  | _ :: _, [] => by simp [lexLtChars]
  | a :: as, b :: bs => by
    by_cases h1 : a.toNat < b.toNat
    · refine Or.inl ?_
      simp only [lexLtChars]
      rw [if_pos h1]
    · by_cases h2 : b.toNat < a.toNat
      · refine Or.inr (Or.inl ?_)
        simp only [lexLtChars]
        rw [if_pos h2]
      · have h3 : a.toNat = b.toNat := by omega
        have hab : a = b := Char.eq_of_val_eq (UInt32.ext h3)
        rcases lexLtChars_total as bs with h | h | h
        · refine Or.inl ?_
          simp only [lexLtChars]
          rw [if_neg h1, if_neg h2]
          exact h
        · refine Or.inr (Or.inl ?_)
          simp only [lexLtChars]
          rw [if_neg h2, if_neg h1]
          exact h
        · exact Or.inr (Or.inr (by rw [hab, h]))

theorem lexLtChars_trans :
    ∀ as bs cs, lexLtChars as bs = true → lexLtChars bs cs = true →
      lexLtChars as cs = true
  | _, [], _ => by
    intro h1 h2
    rename_i as cs
    cases as <;> cases cs <;> simp_all [lexLtChars]
  | as, _ :: _, [] => by
    intro _ h2
    simp [lexLtChars] at h2
  | [], b :: bs, c :: cs => by
    intro _ _
    simp [lexLtChars]
  | a :: as, b :: bs, c :: cs => by
    intro h1 h2
    simp only [lexLtChars] at h1 h2 ⊢
    by_cases hab1 : a.toNat < b.toNat <;> by_cases hbc1 : b.toNat < c.toNat
    · rw [if_pos (by omega)]
    · by_cases hbc2 : c.toNat < b.toNat
      · rw [if_neg hbc1, if_pos hbc2] at h2
        exact absurd h2 (by simp)
      · rw [if_pos (by omega : a.toNat < c.toNat)]
    · by_cases hab2 : b.toNat < a.toNat
      · rw [if_neg hab1, if_pos hab2] at h1
        exact absurd h1 (by simp)
      · rw [if_pos (by omega : a.toNat < c.toNat)]
    · by_cases hab2 : b.toNat < a.toNat
      · rw [if_neg hab1, if_pos hab2] at h1
        exact absurd h1 (by simp)
      · by_cases hbc2 : c.toNat < b.toNat
        · rw [if_neg hbc1, if_pos hbc2] at h2
          exact absurd h2 (by simp)
        · rw [if_neg hab1, if_neg hab2] at h1
          rw [if_neg hbc1, if_neg hbc2] at h2
          rw [if_neg (by omega), if_neg (by omega)]
          exact lexLtChars_trans as bs cs h1 h2

theorem strLtB_asymm {a b : String} (h : strLtB a b = true) : strLtB b a = false :=
  lexLtChars_asymm _ _ h

theorem strLtB_total (a b : String) :
    strLtB a b = true ∨ strLtB b a = true ∨ a = b := by
  rcases lexLtChars_total a.data b.data with h | h | h
  · exact Or.inl h
  · exact Or.inr (Or.inl h)
  · exact Or.inr (Or.inr (string_eq_of_data _ _ h))

theorem strLtB_trans {a b c : String} (h1 : strLtB a b = true)
    (h2 : strLtB b c = true) : strLtB a c = true :=
  lexLtChars_trans _ _ _ h1 h2

theorem dotdot_not_mem_foldl_normStep (l : List String) :
    ∀ acc : List String, ".." ∉ acc → ".." ∉ l.foldl normStep acc := by
  induction l with
  | nil => intro acc h; simpa using h
  | cons seg rest ih =>
    intro acc h
    refine ih _ ?_
    unfold normStep
    split
    · intro hmem
      exact h ((List.dropLast_sublist acc).mem hmem)
    · split
      · exact h
      · intro hmem
        rcases List.mem_append.mp hmem with h1 | h2
        · exact h h1
        · rename_i hne _
          simp at h2
          exact hne h2.symm

theorem data_renderAbs (segs : List String) :
    (renderAbs segs).data = '/' :: joinSegsChars segs := rfl

/-- C4: `resolve_path` never escapes the root: the result is the rendering of
a stack of segments containing no `..` (so it is an absolute path and not a
strict ancestor of `"/"`), `resolve_path "/" ".." h = "/"`, and a `..`
popped against an empty segment stack is a no-op. -/
theorem resolve_path_no_escape (c t h : String) :
    (∃ segs, resolve_path c t h = renderAbs segs ∧ ".." ∉ segs)
    ∧ (resolve_path c t h).data.head? = some '/'
    ∧ resolve_path "/" ".." h = "/"
    ∧ (∀ rest : List String, normalizeSegments (".." :: rest) = normalizeSegments rest) := by
  refine ⟨⟨normalizeSegments (pathComponentsOf (if strStartsWith t "/" then t
      else if t = "~" then h
      else if strStartsWith t "~/" then joinAbs h (strDrop t 2)
      else joinAbs c t)), rfl, ?_⟩, ?_, ?_, ?_⟩
  · exact dotdot_not_mem_foldl_normStep _ [] (by simp)
  · rw [resolve_path]
    rfl
  · rfl
  · intro rest
    rfl

theorem b64Val_b64Char : ∀ n, n < 64 → b64Val (b64Char n) = some n := by decide

theorem b64Char_ne_eq : ∀ n, n < 64 → b64Char n ≠ '=' := by decide

theorem base64_roundtrip :
    ∀ bs : List Nat, (∀ b ∈ bs, b < 256) → base64DecodeChunks (base64Chunks bs) = some bs
  | [], _ => rfl
  | [a], h => by
    have ha : a < 256 := h a (by simp)
    have h1 : a / 4 < 64 := by omega
    have h2 : a % 4 * 16 < 64 := by omega
    simp only [base64Chunks, base64DecodeChunks, b64Val_b64Char _ h1, b64Val_b64Char _ h2]
    have : a % 4 * 16 % 16 = 0 := by omega
    simp [this]
    omega
  | [a, b], h => by
    have ha : a < 256 := h a (by simp)
    have hb : b < 256 := h b (by simp)
    have h1 : a / 4 < 64 := by omega
    have h2 : a % 4 * 16 + b / 16 < 64 := by omega
    have h3 : b % 16 * 4 < 64 := by omega
    simp only [base64Chunks, base64DecodeChunks, b64Val_b64Char _ h1, b64Val_b64Char _ h2,
      b64Val_b64Char _ h3, b64Char_ne_eq _ h3, if_false]
    have : b % 16 * 4 % 4 = 0 := by omega
    simp [b64Char_ne_eq _ h3, this]
    constructor <;> omega
  | a :: b :: c :: d :: rest, h => by
    have ha : a < 256 := h a (by simp)
    have hb : b < 256 := h b (by simp)
    have hc : c < 256 := h c (by simp)
    have h1 : a / 4 < 64 := by omega
    have h2 : a % 4 * 16 + b / 16 < 64 := by omega
    have h3 : b % 16 * 4 + c / 64 < 64 := by omega
    have h4 : c % 64 < 64 := by omega
    have ih := base64_roundtrip (d :: rest) (fun x hx => h x (by simp [hx]))
    simp only [base64Chunks, base64DecodeChunks, b64Val_b64Char _ h1, b64Val_b64Char _ h2,
      b64Val_b64Char _ h3, b64Val_b64Char _ h4, b64Char_ne_eq _ h3, b64Char_ne_eq _ h4, if_false,
      ih, Option.map_some]
    have e1 : a / 4 * 4 + (a % 4 * 16 + b / 16) / 16 = a := by omega
    have e2 : (a % 4 * 16 + b / 16) % 16 * 16 + (b % 16 * 4 + c / 64) / 4 = b := by omega
    have e3 : (b % 16 * 4 + c / 64) % 4 * 64 + c % 64 = c := by omega
    simp [e1, e2, e3]
  | [a, b, c], h => by
    have ha : a < 256 := h a (by simp)
    have hb : b < 256 := h b (by simp)
    have hc : c < 256 := h c (by simp)
    have h1 : a / 4 < 64 := by omega
    have h2 : a % 4 * 16 + b / 16 < 64 := by omega
    have h3 : b % 16 * 4 + c / 64 < 64 := by omega
    have h4 : c % 64 < 64 := by omega
    simp only [base64Chunks, base64DecodeChunks, b64Val_b64Char _ h1, b64Val_b64Char _ h2,
      b64Val_b64Char _ h3, b64Val_b64Char _ h4, b64Char_ne_eq _ h3, b64Char_ne_eq _ h4, if_false,
      Option.map_some]
    have e1 : a / 4 * 4 + (a % 4 * 16 + b / 16) / 16 = a := by omega
    have e2 : (a % 4 * 16 + b / 16) % 16 * 16 + (b % 16 * 4 + c / 64) / 4 = b := by omega
    have e3 : (b % 16 * 4 + c / 64) % 4 * 64 + c % 64 = c := by omega
    simp [e1, e2, e3]

theorem listOrd_total : ∀ a b : FileNode, listOrd a b ∨ listOrd b a := by
  intro a b
  rcases strLtB_total b.nodeType a.nodeType with h | h | h
  · exact Or.inl (Or.inl h)
  · exact Or.inr (Or.inl h)
  · rcases em (strLtB b.name a.name = true) with hn | hn
    · exact Or.inr (Or.inr ⟨h, strLtB_asymm hn⟩)
    · exact Or.inl (Or.inr ⟨h.symm, Bool.eq_false_iff.mpr hn⟩)

theorem listOrd_trans :
    ∀ a b c : FileNode, listOrd a b → listOrd b c → listOrd a c := by
  intro a b c hab hbc
  rcases hab with h1 | ⟨e1, n1⟩
  · rcases hbc with h2 | ⟨e2, _⟩
    · exact Or.inl (strLtB_trans h2 h1)
    · exact Or.inl (e2 ▸ h1)
  · rcases hbc with h2 | ⟨e2, n2⟩
    · exact Or.inl (by rw [e1]; exact h2)
    · refine Or.inr ⟨e1.trans e2, ?_⟩
      by_contra hlt
      have hlt2 : strLtB c.name a.name = true := by
        cases hca : strLtB c.name a.name
        · exact absurd hca hlt
        · rfl
      rcases strLtB_total a.name b.name with h | h | h
      · have := strLtB_trans hlt2 h
        rw [this] at n2; exact absurd n2 (by simp)
      · rw [h] at n1; exact absurd n1 (by simp)
      · rw [h] at hlt2
        rw [hlt2] at n2; exact absurd n2 (by simp)

theorem utf8EncodeChar_length_pos (c : Nat) : 1 ≤ (utf8EncodeChar c).length := by
  rw [utf8EncodeChar]
  split_ifs <;> simp

theorem utf8DecodeFuel_encode :
    ∀ (cs : List Nat) (fuel : Nat), (∀ c ∈ cs, ScalarValue c) →
      (utf8Encode cs).length ≤ fuel → utf8DecodeFuel fuel (utf8Encode cs) = some cs
  | [], fuel, _, _ => by cases fuel <;> rfl
  | c :: cs, fuel, h, hf => by
    obtain ⟨hlt, hsur⟩ : ScalarValue c := h c (by simp)
    have hlen : 1 ≤ (utf8EncodeChar c).length := utf8EncodeChar_length_pos c
    have henc : utf8Encode (c :: cs) = utf8EncodeChar c ++ utf8Encode cs := rfl
    rw [henc] at hf ⊢
    rw [List.length_append] at hf
    cases fuel with
    | zero => omega
    | succ f =>
      have ihf : utf8DecodeFuel f (utf8Encode cs) = some cs :=
        utf8DecodeFuel_encode cs f (fun x hx => h x (by simp [hx])) (by omega)
      by_cases h1 : c < 0x80
      · rw [utf8EncodeChar, if_pos h1, List.cons_append, List.nil_append]
        simp only [utf8DecodeFuel, utf8Split1]
        rw [if_pos h1]
        simp only [ihf, Option.map_some', Option.map_some]
      · by_cases h2 : c < 0x800
        · rw [utf8EncodeChar, if_neg h1, if_pos h2, List.cons_append, List.cons_append,
            List.nil_append]
          simp only [utf8DecodeFuel, utf8Split1]
          rw [if_neg (by omega), if_neg (by omega), if_pos (by omega),
            if_pos ⟨by omega, by omega⟩]
          simp only [ihf, Option.map_some', Option.map_some, Option.some.injEq, List.cons.injEq, and_true]
          omega
        · by_cases h3 : c < 0x10000
          · rw [utf8EncodeChar, if_neg h1, if_neg h2, if_pos h3, List.cons_append,
              List.cons_append, List.cons_append, List.nil_append]
            simp only [utf8DecodeFuel, utf8Split1]
            have g1 : (if (0xE0 + c / 4096 : Nat) = 0xE0 then (0xA0 : Nat) ≤ 0x80 + c / 64 % 64
                else (0x80 : Nat) ≤ 0x80 + c / 64 % 64) := by
              split <;> omega
            have g2 : (if (0xE0 + c / 4096 : Nat) = 0xED then (0x80 + c / 64 % 64 : Nat) < 0xA0
                else (0x80 + c / 64 % 64 : Nat) < 0xC0) := by
              split <;> omega
            rw [if_neg (by omega), if_neg (by omega), if_neg (by omega), if_pos (by omega),
              if_pos ⟨g1, g2, by omega, by omega⟩]
            simp only [ihf, Option.map_some', Option.map_some, Option.some.injEq, List.cons.injEq, and_true]
            omega
          · rw [utf8EncodeChar, if_neg h1, if_neg h2, if_neg h3, List.cons_append,
              List.cons_append, List.cons_append, List.cons_append, List.nil_append]
            simp only [utf8DecodeFuel, utf8Split1]
            have g1 : (if (0xF0 + c / 262144 : Nat) = 0xF0 then
                (0x90 : Nat) ≤ 0x80 + c / 4096 % 64
                else (0x80 : Nat) ≤ 0x80 + c / 4096 % 64) := by
              split <;> omega
            have g2 : (if (0xF0 + c / 262144 : Nat) = 0xF4 then
                (0x80 + c / 4096 % 64 : Nat) < 0x90
                else (0x80 + c / 4096 % 64 : Nat) < 0xC0) := by
              split <;> omega
            rw [if_neg (by omega), if_neg (by omega), if_neg (by omega), if_neg (by omega),
              if_pos (by omega), if_pos ⟨g1, g2, by omega, by omega, by omega, by omega⟩]
            simp only [ihf, Option.map_some', Option.map_some, Option.some.injEq, List.cons.injEq, and_true]
            omega

theorem utf8_roundtrip (cs : List Nat) (h : ∀ c ∈ cs, ScalarValue c) :
    utf8Decode (utf8Encode cs) = some cs :=
  utf8DecodeFuel_encode cs _ h (le_refl _)

/-- C3 counterexample: the read chunk `[104, 105, 255]` is the valid UTF-8
text `"hi"` followed by the invalid byte `0xFF`; the claim says the valid
text is still forwarded, but the reader task forwards no output event at
all for this chunk — the whole chunk is dropped, not just the bytes that
fail to decode. -/
theorem c3_pty_maximal_span_counterexample :
    ptyReaderEvents [[104, 105, 255]] = [] ∧
      ptyChunkOutput [104, 105, 255] = none ∧
      utf8Decode [104, 105] = some [104, 105] ∧
      [104, 105, 255] = utf8Encode [104, 105] ++ [255] := by decide

/-- C3 (amended): the PTY reader decodes each read chunk only as a whole.
A chunk that is in its entirety the UTF-8 encoding of a scalar text is
forwarded as exactly that text in one output event, and a chunk that does
not decode cleanly as a whole is dropped wholesale — no output event is
produced for it, even when it contains valid UTF-8 text. -/
theorem c3_pty_chunk_all_or_nothing (cs : List Nat) (hcs : ∀ c ∈ cs, ScalarValue c)
    (bs : List Nat) (hbad : utf8Decode bs = none) :
    ptyChunkOutput (utf8Encode cs) = some cs ∧ ptyChunkOutput bs = none :=
  ⟨utf8_roundtrip cs hcs, hbad⟩

theorem find?_filter_of_imp {α : Type} (p f : α → Bool)
    (himp : ∀ x, p x = true → f x = true) :
    ∀ l : List α, (l.filter f).find? p = l.find? p := by
  intro l
  induction l with
  | nil => rfl
  | cons a t ih =>
    by_cases hfa : f a = true
    · rw [List.filter_cons_of_pos hfa]
      by_cases hpa : p a = true
      · rw [List.find?_cons_of_pos _ hpa, List.find?_cons_of_pos _ hpa]
      · rw [List.find?_cons_of_neg _ (by simpa using hpa),
          List.find?_cons_of_neg _ (by simpa using hpa)]
        exact ih
    · have hpa : ¬ p a = true := fun h => hfa (himp a h)
      rw [List.filter_cons_of_neg (by simpa using hfa),
        List.find?_cons_of_neg _ (by simpa using hpa)]
      exact ih

theorem filter_map_id_of_other {α : Type} (q : α → Bool) (g : α → α)
    (hq : ∀ x, q (g x) = q x) :
    ∀ l : List α, (∀ x ∈ l, q x = true → g x = x) →
      (l.map g).filter q = l.filter q := by
  intro l
  induction l with
  | nil => exact fun _ => rfl
  | cons a t ih =>
    intro hfix
    rw [List.map_cons]
    by_cases hqa : q a = true
    · rw [List.filter_cons_of_pos (by rw [hq]; exact hqa), List.filter_cons_of_pos hqa,
        hfix a (by simp) hqa]
      exact congrArg _ (ih (fun x hx => hfix x (by simp [hx])))
    · rw [List.filter_cons_of_neg (by rw [hq]; simpa using hqa),
        List.filter_cons_of_neg (by simpa using hqa)]
      exact ih (fun x hx => hfix x (by simp [hx]))

theorem map_filter_comm {α : Type} (f : α → Bool) (g : α → α)
    (hf : ∀ x, f (g x) = f x) :
    ∀ l : List α, (l.map g).filter f = (l.filter f).map g := by
  intro l
  induction l with
  | nil => rfl
  | cons a t ih =>
    rw [List.map_cons]
    by_cases hfa : f a = true
    · rw [List.filter_cons_of_pos (by rw [hf]; exact hfa), List.filter_cons_of_pos hfa,
        List.map_cons]
      exact congrArg _ ih
    · rw [List.filter_cons_of_neg (by rw [hf]; simpa using hfa),
        List.filter_cons_of_neg (by simpa using hfa)]
      exact ih

theorem filter_filter_of_imp {α : Type} (d q : α → Bool) :
    ∀ l : List α, (∀ x ∈ l, q x = true → d x = true) →
      (l.filter d).filter q = l.filter q := by
  intro l
  induction l with
  | nil => exact fun _ => rfl
  | cons a t ih =>
    intro himp
    by_cases hda : d a = true
    · rw [List.filter_cons_of_pos hda]
      by_cases hqa : q a = true
      · rw [List.filter_cons_of_pos hqa, List.filter_cons_of_pos hqa]
        exact congrArg _ (ih (fun x hx => himp x (by simp [hx])))
      · rw [List.filter_cons_of_neg (by simpa using hqa),
          List.filter_cons_of_neg (by simpa using hqa)]
        exact ih (fun x hx => himp x (by simp [hx]))
    · have hqa : ¬ q a = true := fun h => hda (himp a (by simp) h)
      rw [List.filter_cons_of_neg (by simpa using hda),
        List.filter_cons_of_neg (by simpa using hqa)]
      exact ih (fun x hx => himp x (by simp [hx]))

theorem filter_swap {α : Type} (a b : α → Bool) (l : List α) :
    (l.filter a).filter b = (l.filter b).filter a := by
  simp [List.filter_filter, Bool.and_comm]

theorem find?_congr_pred {α : Type} (p q : α → Bool) (h : ∀ x, p x = q x) :
    ∀ l : List α, l.find? p = l.find? q := by
  intro l
  induction l with
  | nil => rfl
  | cons a t ih =>
    by_cases hqa : q a = true
    · rw [List.find?_cons_of_pos _ hqa, List.find?_cons_of_pos _ (by rw [h a]; exact hqa)]
    · rw [List.find?_cons_of_neg _ (fun hpa => hqa (h a ▸ hpa)),
        List.find?_cons_of_neg _ (by simpa using hqa)]
      exact ih

theorem distinctIds_filter (s : Store) (f : FileRow → Bool) (hd : distinctIds s) :
    distinctIds (s.filter f) :=
  hd.sublist ((List.filter_sublist s).map (fun r => r.id))

theorem row_eq_of_id {s : Store} (hd : distinctIds s) {a b : FileRow}
    (ha : a ∈ s) (hb : b ∈ s) (h : a.id = b.id) : a = b :=
  List.inj_on_of_nodup_map hd ha hb h

theorem find_by_id :
    ∀ (s : Store), distinctIds s → ∀ r ∈ s, ∀ (p : FileRow → Bool), p r = true →
      (∀ x ∈ s, p x = true → x.id = r.id) → s.find? p = some r
  | [], _, r, hr, _, _, _ => absurd hr (List.not_mem_nil r)
  | a :: t, hd, r, hr, p, hpr, himp => by
    by_cases hpa : p a = true
    · have haid : a.id = r.id := himp a (by simp) hpa
      have har : a = r :=
        row_eq_of_id hd (by simp) hr haid
      rw [List.find?_cons_of_pos _ hpa, har]
    · have hra : r ≠ a := fun h => hpa (h ▸ hpr)
      have hrt : r ∈ t := by
        rcases List.mem_cons.mp hr with h | h
        · exact absurd h hra
        · exact h
      have hd2 : distinctIds t := by
        unfold distinctIds at hd ⊢
        rw [List.map_cons, List.nodup_cons] at hd
        exact hd.2
      rw [List.find?_cons_of_neg _ (by simpa using hpa)]
      exact find_by_id t hd2 r hrt p hpr (fun x hx hpx => himp x (by simp [hx]) hpx)

theorem childLookup_filter_owner (s : Store) (u : Nat) (parent : Option Nat) (nm : String) :
    childLookup (s.filter (fun r => r.owner == u)) u parent nm = childLookup s u parent nm :=
  find?_filter_of_imp _ _
    (fun x hx => by
      simp only [Bool.and_eq_true] at hx
      exact hx.1.1.1) s

theorem getPathIdAux_filter_owner (s : Store) (u : Nat) :
    ∀ (comps : List String) (cur : Option Nat),
      getPathIdAux (s.filter (fun r => r.owner == u)) u cur comps = getPathIdAux s u cur comps
  | [], _ => rfl
  | comp :: rest, cur => by
    rw [getPathIdAux, getPathIdAux, childLookup_filter_owner]
    cases childLookup s u cur comp with
    | none => rfl
    | some r => exact getPathIdAux_filter_owner s u rest (some r.id)

theorem get_path_id_filter_owner (s : Store) (u : Nat) (p : String) :
    get_path_id (s.filter (fun r => r.owner == u)) u p = get_path_id s u p :=
  getPathIdAux_filter_owner s u _ _

theorem childLookup_map (s : Store) (u : Nat) (parent : Option Nat) (nm : String)
    (g : FileRow → FileRow)
    (hg : ∀ x, (g x).owner = x.owner ∧ (g x).parent = x.parent ∧ (g x).name = x.name ∧
      (g x).isTrashed = x.isTrashed) :
    childLookup (s.map g) u parent nm = (childLookup s u parent nm).map g := by
  unfold childLookup
  rw [List.find?_map]
  rw [find?_congr_pred
    ((fun r => r.owner == u && r.parent == parent && r.name == nm && !r.isTrashed) ∘ g)
    (fun r => r.owner == u && r.parent == parent && r.name == nm && !r.isTrashed)
    (fun x => by
      simp only [Function.comp_apply, (hg x).1, (hg x).2.1, (hg x).2.2.1, (hg x).2.2.2]) s]

theorem getPathIdAux_map (s : Store) (u : Nat) (g : FileRow → FileRow)
    (hg : ∀ x, (g x).owner = x.owner ∧ (g x).parent = x.parent ∧ (g x).name = x.name ∧
      (g x).isTrashed = x.isTrashed)
    (hgid : ∀ x, (g x).id = x.id) :
    ∀ (comps : List String) (cur : Option Nat),
      getPathIdAux (s.map g) u cur comps = getPathIdAux s u cur comps
  | [], _ => rfl
  | comp :: rest, cur => by
    rw [getPathIdAux, getPathIdAux, childLookup_map s u cur comp g hg]
    cases childLookup s u cur comp with
    | none => rfl
    | some r =>
      simp only [Option.map_some']
      rw [hgid r]
      exact getPathIdAux_map s u g hg hgid rest (some r.id)

theorem getPathIdAux_some :
    ∀ (comps : List String) (s : Store) (u : Nat) (cur : Option Nat) (i : Nat),
      getPathIdAux s u cur comps = some i →
      (comps = [] ∧ cur = some i) ∨
        ∃ r ∈ s, r.id = i ∧ r.owner = u ∧ r.isTrashed = false
  | [], _, _, _, _ => fun h => Or.inl ⟨rfl, h⟩
  | comp :: rest, s, u, cur, i => fun h => by
    rw [getPathIdAux] at h
    cases hc : childLookup s u cur comp with
    | none => rw [hc] at h; cases h
    | some r =>
      rw [hc] at h
      have hmem := List.mem_of_find?_eq_some hc
      have hp := List.find?_some hc
      simp only [Bool.and_eq_true, beq_iff_eq, Bool.not_eq_true'] at hp
      obtain ⟨⟨⟨h1, _⟩, _⟩, h4⟩ := hp
      rcases getPathIdAux_some rest s u (some r.id) i h with ⟨_, hcur⟩ | hex
      · refine Or.inr ⟨r, hmem, ?_, h1, h4⟩
        exact Option.some.injEq _ _ ▸ hcur
      · exact Or.inr hex

/-- C1 counterexample: with an empty store, `create("/missing/f", "dir")`
has a parent path `/missing` whose single component resolves to nothing,
yet the call succeeds and inserts a row — placed under the root, because
`get_path_id` reports "not found" as the same `None` that denotes the
root.  The claim that no row is inserted in this situation is false. -/
theorem c1_create_unresolved_parent_counterexample :
    getPathIdAux ([] : Store) 1 none ["missing"] = none ∧
      pathComponentsOf "/missing/f" = ["missing", "f"] ∧
      (create_node ⟨[], []⟩ 1 "/missing/f" "dir" 1 "blob1").2 = .ok () ∧
      (create_node ⟨[], []⟩ 1 "/missing/f" "dir" 1 "blob1").1.store =
        [⟨1, 1, none, "f", "dir", none, "/missing/f", 0, 0, false, none⟩] := by decide

/-- C1 (amended): a successful `create(path, type)` appends exactly one row
whose parent is the value `get_path_id` produced for the parent path.
That value is either `none` — the root, which is also what an unresolvable
parent path produces, so such a call still inserts, under the root — or
the id of an existing not-trashed row of the owner.  With a fresh id the
primary-key uniqueness of the store is preserved, so the node set stays
tree-shaped: every parent link is the root or an already existing node.
(The claim's stronger assertion that an unresolved parent prevents the
insert is refuted by `c1_create_unresolved_parent_counterexample`.) -/
theorem c1_create_parent_resolved (w : VfsState) (u : Nat) (p t : String)
    (freshId : Nat) (freshBlob : String)
    (hfresh : ∀ r ∈ w.store, r.id ≠ freshId)
    (hok : (create_node w u p t freshId freshBlob).2 = .ok ()) :
    ∃ nm, (pathComponentsOf p).getLast? = some nm ∧
      (create_node w u p t freshId freshBlob).1.store =
        w.store ++ [⟨freshId, u, getPathIdAux w.store u none (pathComponentsOf p).dropLast,
          nm, t, if t = "file" then some freshBlob else none, p, 0, 0, false, none⟩] ∧
      (getPathIdAux w.store u none (pathComponentsOf p).dropLast = none ∨
        ∃ r ∈ w.store,
          some r.id = getPathIdAux w.store u none (pathComponentsOf p).dropLast ∧
            r.owner = u ∧ r.isTrashed = false) ∧
      (distinctIds w.store →
        distinctIds (create_node w u p t freshId freshBlob).1.store) := by
  unfold create_node at hok ⊢
  dsimp only at hok ⊢
  cases hl : (pathComponentsOf p).getLast? with
  | none =>
    rw [hl] at hok
    simp at hok
  | some nm =>
    rw [hl] at hok
    dsimp only at hok ⊢
    by_cases hdd : nm = ".."
    · rw [if_pos hdd] at hok; cases hok
    · rw [if_neg hdd] at hok ⊢
      refine ⟨nm, rfl, rfl, ?_, ?_⟩
      · cases hpid : getPathIdAux w.store u none (pathComponentsOf p).dropLast with
        | none => exact Or.inl rfl
        | some i =>
          rcases getPathIdAux_some _ _ _ _ _ hpid with ⟨_, hcur⟩ | hex
          · cases hcur
          · obtain ⟨r, hmem, hid, how, htr⟩ := hex
            exact Or.inr ⟨r, hmem, by rw [hid], how, htr⟩
      · intro hd
        unfold distinctIds at hd ⊢
        rw [List.map_append, List.nodup_append]
        refine ⟨hd, List.nodup_singleton _, ?_⟩
        intro x hx hx1
        simp only [List.map_cons, List.map_nil, List.mem_singleton] at hx1
        obtain ⟨r, hr, hrid⟩ := List.mem_map.mp hx
        exact hfresh r hr (by rw [hrid, hx1])

theorem c1_create_parent_resolved_witness :
    (∀ r ∈ (VfsState.mk [] []).store, r.id ≠ 1) ∧
      ((create_node ⟨[], []⟩ 1 "/missing/f" "dir" 1 "blob1").2 = .ok ()) ∧
      (∃ nm, (pathComponentsOf "/missing/f").getLast? = some nm ∧
        (create_node ⟨[], []⟩ 1 "/missing/f" "dir" 1 "blob1").1.store =
          (VfsState.mk [] []).store ++
            [⟨1, 1,
              getPathIdAux (VfsState.mk [] []).store 1 none
                (pathComponentsOf "/missing/f").dropLast,
              nm, "dir", if "dir" = "file" then some "blob1" else none, "/missing/f",
              0, 0, false, none⟩] ∧
        (getPathIdAux (VfsState.mk [] []).store 1 none
            (pathComponentsOf "/missing/f").dropLast = none ∨
          ∃ r ∈ (VfsState.mk [] []).store,
            some r.id = getPathIdAux (VfsState.mk [] []).store 1 none
              (pathComponentsOf "/missing/f").dropLast ∧ r.owner = 1 ∧ r.isTrashed = false) ∧
        (distinctIds (VfsState.mk [] []).store →
          distinctIds (create_node ⟨[], []⟩ 1 "/missing/f" "dir" 1 "blob1").1.store)) :=
  ⟨by decide, by decide,
    c1_create_parent_resolved ⟨[], []⟩ 1 "/missing/f" "dir" 1 "blob1" (by decide) (by decide)⟩

/-- C2 counterexample: with one directory child `a` and one file child `b`
under the root, `list` returns the file first: `ORDER BY node_type DESC`
sorts the TEXT values bytewise descending and `"file" > "dir"`, so the
claimed directories-before-files order is false. -/
theorem c2_list_order_counterexample :
    list_directory
        ⟨[⟨1, 1, none, "a", "dir", none, "/a", 0, 0, false, none⟩,
          ⟨2, 1, none, "b", "file", some "bl", "/b", 0, 0, false, none⟩], []⟩ 1 "/" =
      [⟨"b", "file", 0, 0⟩, ⟨"a", "dir", 0, 0⟩] ∧
      ("b" : String) ≠ "a" := by decide

/-- C2 (amended): for every path, `list` returns exactly the owner's
not-trashed children of the resolved id (the conflated root value when the
path does not resolve) — as a permutation of that set — ordered with all
files before all directories (`node_type` descending under the binary
collation) and, within each type, ascending by name: the result is sorted
by `listOrd`. -/
theorem c2_list_directory_sorted (w : VfsState) (u : Nat) (p : String) :
    (list_directory w u p).Perm
        ((w.store.filter (fun r =>
            r.owner == u && r.parent == get_path_id w.store u p && !r.isTrashed)).map
          (fun r => FileNode.mk r.name r.nodeType r.size r.updatedAt)) ∧
      (list_directory w u p).Sorted listOrd := by
  constructor
  · exact List.perm_insertionSort _ _
  · haveI : IsTotal FileNode listOrd := ⟨listOrd_total⟩
    haveI : IsTrans FileNode listOrd := ⟨listOrd_trans⟩
    exact List.sorted_insertionSort _ _

/-- C5: while the session is unauthenticated, any decodable non-login
request draws exactly one error response carrying the inbound request id
and the message `"Authentication required"`, the connection stays open and
the state is unchanged; a login with a wrong password (the credential
check returns nothing) draws one error response carrying the original
request id and leaves the session unauthenticated, so the same VFS request
afterwards is rejected identically. -/
theorem c5_unauthenticated_rejection (env : SessionEnv) (st : SessionState) (w : VfsState)
    (req : ClientRequest) (hu : st.user = none)
    (hnl : ∀ un pw, req.payload ≠ .login un pw)
    (lreq : ClientRequest) (lun lpw : String) (hlp : lreq.payload = .login lun lpw)
    (hbad : env.verify lun lpw = none) :
    handle_client_message env st w (.text (.ok req)) =
      ⟨st, w, [.response req.requestId (.error "Authentication required")], [], false⟩ ∧
    handle_client_message env st w (.text (.ok lreq)) =
      ⟨st, w, [.response lreq.requestId (.error "Invalid credentials")], [], false⟩ ∧
    handle_client_message env
        (handle_client_message env st w (.text (.ok lreq))).state
        (handle_client_message env st w (.text (.ok lreq))).world
        (.text (.ok req)) =
      ⟨st, w, [.response req.requestId (.error "Authentication required")], [], false⟩ := by
  obtain ⟨rid, pl⟩ := req
  obtain ⟨lrid, lpl⟩ := lreq
  have hlp2 : lpl = .login lun lpw := hlp
  subst hlp2
  have hrej : handle_client_message env st w (.text (.ok ⟨rid, pl⟩)) =
      ⟨st, w, [.response rid (.error "Authentication required")], [], false⟩ := by
    cases pl with
    | login un pw => exact absurd rfl (hnl un pw)
    | runCommand c => simp [handle_client_message, hu]
    | vfsList p => simp [handle_client_message, hu]
    | vfsReadFile p => simp [handle_client_message, hu]
    | vfsWriteFile p c => simp [handle_client_message, hu]
    | vfsCreateNode p t => simp [handle_client_message, hu]
    | vfsMoveNode po pn => simp [handle_client_message, hu]
    | vfsTrashNode p => simp [handle_client_message, hu]
    | vfsListTrash => simp [handle_client_message, hu]
    | vfsRestoreNode i => simp [handle_client_message, hu]
    | vfsDeleteNode i => simp [handle_client_message, hu]
    | vfsEmptyTrash => simp [handle_client_message, hu]
  have hlogin : handle_client_message env st w (.text (.ok ⟨lrid, .login lun lpw⟩)) =
      ⟨st, w, [.response lrid (.error "Invalid credentials")], [], false⟩ := by
    simp [handle_client_message, hu, handle_login, hbad]
  refine ⟨hrej, hlogin, ?_⟩
  rw [hlogin]
  exact hrej

theorem c5_unauthenticated_rejection_witness :
    ((⟨none, "/"⟩ : SessionState).user = none) ∧
      ((SessionEnv.mk
          (fun un pw => if un = "guest" && pw = "password" then
            some ⟨1, "guest", "Admin"⟩ else none) true 0 1 "b1").verify "guest" "wrong"
        = none) ∧
      (handle_client_message
          ⟨(fun un pw => if un = "guest" && pw = "password" then
            some ⟨1, "guest", "Admin"⟩ else none), true, 0, 1, "b1"⟩
          ⟨none, "/"⟩ ⟨[], []⟩ (.text (.ok ⟨"2", .vfsListTrash⟩)) =
        ⟨⟨none, "/"⟩, ⟨[], []⟩,
          [.response "2" (.error "Authentication required")], [], false⟩ ∧
      handle_client_message
          ⟨(fun un pw => if un = "guest" && pw = "password" then
            some ⟨1, "guest", "Admin"⟩ else none), true, 0, 1, "b1"⟩
          ⟨none, "/"⟩ ⟨[], []⟩ (.text (.ok ⟨"1", .login "guest" "wrong"⟩)) =
        ⟨⟨none, "/"⟩, ⟨[], []⟩,
          [.response "1" (.error "Invalid credentials")], [], false⟩ ∧
      handle_client_message
          ⟨(fun un pw => if un = "guest" && pw = "password" then
            some ⟨1, "guest", "Admin"⟩ else none), true, 0, 1, "b1"⟩
          (handle_client_message
            ⟨(fun un pw => if un = "guest" && pw = "password" then
              some ⟨1, "guest", "Admin"⟩ else none), true, 0, 1, "b1"⟩
            ⟨none, "/"⟩ ⟨[], []⟩ (.text (.ok ⟨"1", .login "guest" "wrong"⟩))).state
          (handle_client_message
            ⟨(fun un pw => if un = "guest" && pw = "password" then
              some ⟨1, "guest", "Admin"⟩ else none), true, 0, 1, "b1"⟩
            ⟨none, "/"⟩ ⟨[], []⟩ (.text (.ok ⟨"1", .login "guest" "wrong"⟩))).world
          (.text (.ok ⟨"2", .vfsListTrash⟩)) =
        ⟨⟨none, "/"⟩, ⟨[], []⟩,
          [.response "2" (.error "Authentication required")], [], false⟩) :=
  ⟨rfl, by decide,
    c5_unauthenticated_rejection _ ⟨none, "/"⟩ ⟨[], []⟩ ⟨"2", .vfsListTrash⟩ rfl
      (fun un pw h => ClientRequestPayload.noConfusion h)
      ⟨"1", .login "guest" "wrong"⟩ "guest" "wrong" rfl (by decide)⟩

/-- Authenticated dispatch either leaves the session state unchanged or
handles a `cd`-shaped `runCommand`. -/
theorem har_state (env : SessionEnv) (st : SessionState) (w : VfsState)
    (user : UserInfo) (req : ClientRequest) :
    (handle_authenticated_request env st w user req).1 = st ∨
      ∃ c, req.payload = .runCommand c ∧ strStartsWith (rustTrim c) "cd " = true ∧
        (handle_authenticated_request env st w user req).1 =
          ⟨st.user, resolve_path st.cwd ((splitWhitespace (rustTrim c))[1]?.getD "~")
            ("/home/" ++ user.username)⟩ := by
  obtain ⟨rid, pl⟩ := req
  cases pl with
  | runCommand c =>
    by_cases hcd : strStartsWith (rustTrim c) "cd " = true
    · right
      refine ⟨c, rfl, hcd, ?_⟩
      unfold handle_authenticated_request
      dsimp only
      rw [if_pos hcd]
    · left
      unfold handle_authenticated_request
      dsimp only
      rw [if_neg hcd]
  | login un pw => left; rfl
  | vfsList p => left; rfl
  | vfsListTrash => left; rfl
  | vfsReadFile p =>
    left; unfold handle_authenticated_request; dsimp only; split <;> rfl
  | vfsWriteFile p c =>
    left; unfold handle_authenticated_request; dsimp only; split <;> rfl
  | vfsCreateNode p t =>
    left; unfold handle_authenticated_request; dsimp only; split <;> rfl
  | vfsMoveNode po pn =>
    left; unfold handle_authenticated_request; dsimp only; split <;> rfl
  | vfsTrashNode p =>
    left; unfold handle_authenticated_request; dsimp only; split <;> rfl
  | vfsRestoreNode i =>
    left; unfold handle_authenticated_request; dsimp only; split <;> rfl
  | vfsDeleteNode i =>
    left; unfold handle_authenticated_request; dsimp only; split <;> rfl
  | vfsEmptyTrash =>
    left; unfold handle_authenticated_request; dsimp only; split <;> rfl

/-- C7 counterexample: a successful login is a handled request that is not
a `runCommand`, yet it mutates the session's current directory (from `/`
to the user's home directory). -/
theorem c7_login_changes_cwd_counterexample :
    (handle_client_message
        ⟨(fun un pw => if un == "guest" && pw == "pw" then
            some ⟨1, "guest", "Admin"⟩ else none), true, 0, 1, "b1"⟩
        ⟨none, "/"⟩ ⟨[], []⟩ (.text (.ok ⟨"1", .login "guest" "pw"⟩))).state.cwd
      = "/home/guest" ∧
    ("/home/guest" : String) ≠ "/" ∧
    (∀ c : String, (ClientRequestPayload.login "guest" "pw") ≠ .runCommand c) :=
  ⟨by decide, by decide, fun _ h => ClientRequestPayload.noConfusion h⟩

/-- C7 (amended): the session's current directory is mutated only by a
successful login (which sets it to the user's home directory) or by an
authenticated `runCommand` whose trimmed text begins with `"cd "` (which
sets it to `resolve_path` of the second whitespace token, default `"~"`);
no other handled frame — in particular no VFS request — changes it. -/
theorem c7_cwd_only_login_or_cd (env : SessionEnv) (st : SessionState) (w : VfsState)
    (frame : WsFrame)
    (hne : (handle_client_message env st w frame).state.cwd ≠ st.cwd) :
    (∃ req un pw user, frame = .text (.ok req) ∧ req.payload = .login un pw ∧
      st.user = none ∧ env.verify un pw = some user ∧ env.spawnOk = true ∧
      (handle_client_message env st w frame).state.cwd = "/home/" ++ user.username) ∨
    (∃ req c user, frame = .text (.ok req) ∧ req.payload = .runCommand c ∧
      st.user = some user ∧ strStartsWith (rustTrim c) "cd " = true ∧
      (handle_client_message env st w frame).state.cwd =
        resolve_path st.cwd ((splitWhitespace (rustTrim c))[1]?.getD "~")
          ("/home/" ++ user.username)) := by
  cases frame with
  | close => exact absurd rfl hne
  | other => exact absurd rfl hne
  | text dec =>
    cases dec with
    | error e => exact absurd rfl hne
    | ok req =>
      cases hu : st.user with
      | none =>
        obtain ⟨rid, pl⟩ := req
        cases pl with
        | login un pw =>
          cases hv : env.verify un pw with
          | none =>
            simp [handle_client_message, hu, handle_login, hv] at hne
          | some user =>
            cases hs : env.spawnOk with
            | false =>
              simp [handle_client_message, hu, handle_login, hv, hs] at hne
            | true =>
              left
              exact ⟨⟨rid, .login un pw⟩, un, pw, user, rfl, rfl, rfl, hv, rfl,
                by simp [handle_client_message, hu, handle_login, hv, hs]⟩
        | runCommand c => simp [handle_client_message, hu] at hne
        | vfsList p => simp [handle_client_message, hu] at hne
        | vfsReadFile p => simp [handle_client_message, hu] at hne
        | vfsWriteFile p c => simp [handle_client_message, hu] at hne
        | vfsCreateNode p t => simp [handle_client_message, hu] at hne
        | vfsMoveNode po pn => simp [handle_client_message, hu] at hne
        | vfsTrashNode p => simp [handle_client_message, hu] at hne
        | vfsListTrash => simp [handle_client_message, hu] at hne
        | vfsRestoreNode i => simp [handle_client_message, hu] at hne
        | vfsDeleteNode i => simp [handle_client_message, hu] at hne
        | vfsEmptyTrash => simp [handle_client_message, hu] at hne
      | some user =>
        have hstate : (handle_client_message env st w (.text (.ok req))).state =
            (handle_authenticated_request env st w user req).1 := by
          simp [handle_client_message, hu]
        rcases har_state env st w user req with hstq | ⟨c, hpc, hcd, hst⟩
        · rw [hstate, hstq] at hne
          exact absurd rfl hne
        · right
          refine ⟨req, c, user, rfl, hpc, rfl, hcd, ?_⟩
          rw [hstate, hst]

theorem c7_cwd_only_login_or_cd_witness :
    ((handle_client_message ⟨(fun _ _ => none), true, 0, 1, "b1"⟩
        ⟨some ⟨1, "guest", "Admin"⟩, "/home/guest"⟩ ⟨[], []⟩
        (.text (.ok ⟨"9", .runCommand "cd /"⟩))).state.cwd ≠ "/home/guest") ∧
      ((∃ req un pw user, (WsFrame.text (.ok ⟨"9", .runCommand "cd /"⟩)) = .text (.ok req) ∧
        req.payload = .login un pw ∧
        (SessionState.mk (some ⟨1, "guest", "Admin"⟩) "/home/guest").user = none ∧
        (SessionEnv.mk (fun _ _ => none) true 0 1 "b1").verify un pw = some user ∧
        (SessionEnv.mk (fun _ _ => none) true 0 1 "b1").spawnOk = true ∧
        (handle_client_message ⟨(fun _ _ => none), true, 0, 1, "b1"⟩
          ⟨some ⟨1, "guest", "Admin"⟩, "/home/guest"⟩ ⟨[], []⟩
          (.text (.ok ⟨"9", .runCommand "cd /"⟩))).state.cwd = "/home/" ++ user.username) ∨
      (∃ req c user, (WsFrame.text (.ok ⟨"9", .runCommand "cd /"⟩)) = .text (.ok req) ∧
        req.payload = .runCommand c ∧
        (SessionState.mk (some ⟨1, "guest", "Admin"⟩) "/home/guest").user = some user ∧
        strStartsWith (rustTrim c) "cd " = true ∧
        (handle_client_message ⟨(fun _ _ => none), true, 0, 1, "b1"⟩
          ⟨some ⟨1, "guest", "Admin"⟩, "/home/guest"⟩ ⟨[], []⟩
          (.text (.ok ⟨"9", .runCommand "cd /"⟩))).state.cwd =
          resolve_path "/home/guest" ((splitWhitespace (rustTrim c))[1]?.getD "~")
            ("/home/" ++ user.username))) :=
  ⟨by decide,
    c7_cwd_only_login_or_cd ⟨(fun _ _ => none), true, 0, 1, "b1"⟩
      ⟨some ⟨1, "guest", "Admin"⟩, "/home/guest"⟩ ⟨[], []⟩
      (.text (.ok ⟨"9", .runCommand "cd /"⟩)) (by decide)⟩

/-- C6: for every path that resolves to an existing not-trashed file row of
the caller, writing the base64 transfer encoding of any byte content and
then reading the path back returns exactly that base64 string, and the
write updates the row's size to the byte length of the content (and its
modification time to the write time). -/
theorem c6_write_read_roundtrip (w : VfsState) (u : Nat) (p : String) (bs : List Nat)
    (hbytes : ∀ b ∈ bs, b < 256) (now : Nat) (fid : Nat)
    (hresolve : get_path_id w.store u p = some fid) (hd : distinctIds w.store)
    (r : FileRow) (hr : r ∈ w.store) (hid : r.id = fid)
    (hfile : r.nodeType = "file") (dp : String) (hdp : r.diskPath = some dp) :
    (write_file_content w u p (base64Encode bs) now).2 = .ok () ∧
    read_file_content (write_file_content w u p (base64Encode bs) now).1 u p =
      .ok (base64Encode bs) ∧
    ∃ r2 ∈ (write_file_content w u p (base64Encode bs) now).1.store,
      r2.id = fid ∧ r2.size = bs.length ∧ r2.updatedAt = now := by
  have hdec : base64Decode (base64Encode bs) = some bs := base64_roundtrip bs hbytes
  have howner : r.owner = u ∧ r.isTrashed = false := by
    rcases getPathIdAux_some (pathComponentsOf p) w.store u none fid hresolve with ⟨_, hc⟩ | hex
    · cases hc
    · obtain ⟨r0, hr0, hid0, how0, htr0⟩ := hex
      have he : r0 = r := row_eq_of_id hd hr0 hr (by rw [hid0, hid])
      rw [← he]
      exact ⟨how0, htr0⟩
  have hfind : w.store.find? (fun x => x.id == fid) = some r :=
    find_by_id w.store hd r hr _ (by simp [hid])
      (fun x _ hpx => by
        simp only [beq_iff_eq] at hpx
        rw [hpx, hid])
  set g := fun q : FileRow =>
    if q.id == fid then { q with size := bs.length, updatedAt := now } else q with hgdef
  have hgfields : ∀ x : FileRow, (g x).owner = x.owner ∧ (g x).parent = x.parent ∧
      (g x).name = x.name ∧ (g x).isTrashed = x.isTrashed := by
    intro x
    rw [hgdef]
    dsimp only
    split <;> exact ⟨rfl, rfl, rfl, rfl⟩
  have hgid : ∀ x : FileRow, (g x).id = x.id := by
    intro x
    rw [hgdef]
    dsimp only
    split <;> rfl
  have hgr : g r = { r with size := bs.length, updatedAt := now } := by
    rw [hgdef]
    dsimp only
    rw [if_pos (by simp [hid])]
  have hwrite : write_file_content w u p (base64Encode bs) now =
      (⟨w.store.map g, diskWrite w.disk dp bs⟩, .ok ()) := by
    unfold write_file_content
    rw [hresolve]
    dsimp only
    rw [show base64Decode (base64Encode bs) = some bs from hdec]
    dsimp only
    rw [hfind]
    dsimp only
    rw [hdp]
  have hresolve2 : get_path_id (w.store.map g) u p = some fid := by
    unfold get_path_id
    rw [getPathIdAux_map w.store u g hgfields hgid]
    exact hresolve
  have hfindread : w.store.find?
      (fun x => x.id == fid && x.owner == u && x.nodeType == "file") = some r :=
    find_by_id w.store hd r hr _ (by simp [hid, howner.1, hfile])
      (fun x _ hpx => by
        simp only [Bool.and_eq_true, beq_iff_eq] at hpx
        rw [hpx.1.1, hid])
  have hfind2 : (w.store.map g).find?
      (fun x => x.id == fid && x.owner == u && x.nodeType == "file") = some (g r) := by
    rw [List.find?_map]
    rw [find?_congr_pred
      ((fun x => x.id == fid && x.owner == u && x.nodeType == "file") ∘ g)
      (fun x => x.id == fid && x.owner == u && x.nodeType == "file")
      (fun x => by
        simp only [Function.comp_apply, hgid x, (hgfields x).1]
        rw [hgdef]
        dsimp only
        split <;> rfl) w.store]
    rw [hfindread]
    rfl
  have hdr : diskRead (diskWrite w.disk dp bs) dp = some bs := by
    unfold diskRead diskWrite
    rw [List.find?_cons_of_pos _ (by simp)]
    rfl
  refine ⟨by rw [hwrite], ?_, ?_⟩
  · rw [hwrite]
    unfold read_file_content
    dsimp only
    rw [hresolve2]
    dsimp only
    rw [hfind2]
    dsimp only
    rw [hgr]
    dsimp only
    rw [hdp]
    dsimp only
    rw [hdr]
  · rw [hwrite]
    refine ⟨g r, List.mem_map.mpr ⟨r, hr, rfl⟩, ?_, ?_, ?_⟩
    · rw [hgid r, hid]
    · rw [hgr]
    · rw [hgr]

theorem c6_write_read_roundtrip_witness :
    (∀ b ∈ [104, 105], b < 256) ∧
      (get_path_id [⟨4, 1, none, "n.txt", "file", some "bl4", "/n.txt", 0, 0, false, none⟩]
        1 "/n.txt" = some 4) ∧
      distinctIds [⟨4, 1, none, "n.txt", "file", some "bl4", "/n.txt", 0, 0, false, none⟩] ∧
      ((⟨4, 1, none, "n.txt", "file", some "bl4", "/n.txt", 0, 0, false, none⟩ : FileRow) ∈
        ([⟨4, 1, none, "n.txt", "file", some "bl4", "/n.txt", 0, 0, false, none⟩] : Store)) ∧
      ((write_file_content
          ⟨[⟨4, 1, none, "n.txt", "file", some "bl4", "/n.txt", 0, 0, false, none⟩], []⟩
          1 "/n.txt" (base64Encode [104, 105]) 7).2 = .ok () ∧
        read_file_content
          (write_file_content
            ⟨[⟨4, 1, none, "n.txt", "file", some "bl4", "/n.txt", 0, 0, false, none⟩], []⟩
            1 "/n.txt" (base64Encode [104, 105]) 7).1 1 "/n.txt" =
          .ok (base64Encode [104, 105]) ∧
        ∃ r2 ∈ (write_file_content
            ⟨[⟨4, 1, none, "n.txt", "file", some "bl4", "/n.txt", 0, 0, false, none⟩], []⟩
            1 "/n.txt" (base64Encode [104, 105]) 7).1.store,
          r2.id = 4 ∧ r2.size = [104, 105].length ∧ r2.updatedAt = 7) :=
  ⟨by decide, by decide, by decide, by decide,
    c6_write_read_roundtrip
      ⟨[⟨4, 1, none, "n.txt", "file", some "bl4", "/n.txt", 0, 0, false, none⟩], []⟩
      1 "/n.txt" [104, 105] (by decide) 7 4 (by decide) (by decide)
      ⟨4, 1, none, "n.txt", "file", some "bl4", "/n.txt", 0, 0, false, none⟩
      (by decide) (by decide) (by decide) "bl4" (by decide)⟩

theorem list_directory_restrict (u : Nat) (w : VfsState) (p : String) :
    list_directory (restrictOwner u w) u p = list_directory w u p := by
  unfold list_directory restrictOwner
  dsimp only
  rw [get_path_id_filter_owner]
  rw [filter_filter_of_imp _ _ w.store
    (fun x _ hx => by
      simp only [Bool.and_eq_true] at hx
      exact hx.1.1)]

theorem read_file_content_restrict (u : Nat) (w : VfsState) (p : String) :
    read_file_content (restrictOwner u w) u p = read_file_content w u p := by
  unfold read_file_content restrictOwner
  dsimp only
  rw [get_path_id_filter_owner]
  cases get_path_id w.store u p with
  | none => rfl
  | some fid =>
    dsimp only
    rw [find?_filter_of_imp _ _
      (fun x hx => by
        simp only [Bool.and_eq_true] at hx
        exact hx.1.2) w.store]

theorem list_trash_restrict (u : Nat) (w : VfsState) :
    list_trash (restrictOwner u w) u = list_trash w u := by
  unfold list_trash restrictOwner
  dsimp only
  rw [filter_filter_of_imp _ _ w.store
    (fun x _ hx => by
      simp only [Bool.and_eq_true] at hx
      exact hx.1)]

theorem write_file_content_scoped (u : Nat) (w : VfsState) (hd : distinctIds w.store)
    (p c : String) (now : Nat) :
    (write_file_content w u p c now).1.store.filter (fun r => !(r.owner == u)) =
      w.store.filter (fun r => !(r.owner == u)) ∧
    write_file_content (restrictOwner u w) u p c now =
      (restrictOwner u (write_file_content w u p c now).1,
        (write_file_content w u p c now).2) := by
  unfold write_file_content restrictOwner
  dsimp only
  rw [get_path_id_filter_owner]
  cases hpid : get_path_id w.store u p with
  | none => exact ⟨rfl, rfl⟩
  | some fid =>
    dsimp only
    cases hdec : base64Decode c with
    | none => exact ⟨rfl, rfl⟩
    | some content =>
      dsimp only
      rcases getPathIdAux_some (pathComponentsOf p) w.store u none fid hpid with ⟨_, hc⟩ | hex
      · cases hc
      obtain ⟨r0, hr0, hid0, how0, _⟩ := hex
      have hfull : w.store.find? (fun x => x.id == fid) = some r0 :=
        find_by_id w.store hd r0 hr0 _ (by simp [hid0])
          (fun x _ hpx => by simp only [beq_iff_eq] at hpx; rw [hpx, hid0])
      have hres : (w.store.filter (fun r => r.owner == u)).find? (fun x => x.id == fid)
          = some r0 :=
        find_by_id _ (distinctIds_filter _ _ hd) r0
          (List.mem_filter.mpr ⟨hr0, by simp [how0]⟩) _ (by simp [hid0])
          (fun x _ hpx => by simp only [beq_iff_eq] at hpx; rw [hpx, hid0])
      rw [hfull, hres]
      dsimp only
      cases hdp : r0.diskPath with
      | none => exact ⟨rfl, rfl⟩
      | some dp =>
        dsimp only
        constructor
        · apply filter_map_id_of_other
          · intro x; split <;> rfl
          · intro x hx hqx
            have hxid : ¬ (x.id == fid) = true := by
              simp only [beq_iff_eq]
              intro hxe
              have hxr : x = r0 := row_eq_of_id hd hx hr0 (by rw [hxe, hid0])
              rw [hxr] at hqx
              simp [how0] at hqx
            rw [if_neg hxid]
        · simp only [Prod.mk.injEq, VfsState.mk.injEq]
          refine ⟨⟨?_, trivial⟩, trivial⟩
          exact (map_filter_comm _ _ (fun x => by split <;> rfl) w.store).symm

theorem trash_node_scoped (u : Nat) (w : VfsState) (p : String) (now : Nat) :
    (trash_node w u p now).1.store.filter (fun r => !(r.owner == u)) =
      w.store.filter (fun r => !(r.owner == u)) ∧
    trash_node (restrictOwner u w) u p now =
      (restrictOwner u (trash_node w u p now).1, (trash_node w u p now).2) := by
  unfold trash_node restrictOwner
  dsimp only
  rw [get_path_id_filter_owner]
  cases hpid : get_path_id w.store u p with
  | none => exact ⟨rfl, rfl⟩
  | some nid =>
    dsimp only
    constructor
    · apply filter_map_id_of_other
      · intro x; split <;> rfl
      · intro x hx hqx
        have hcond : ¬ (x.id == nid && x.owner == u) = true := by
          simp only [Bool.and_eq_true, beq_iff_eq, not_and]
          intro _ hxo
          rw [hxo] at hqx
          simp at hqx
        rw [if_neg hcond]
    · simp only [Prod.mk.injEq, VfsState.mk.injEq]
      refine ⟨⟨?_, trivial⟩, trivial⟩
      exact (map_filter_comm _ _ (fun x => by split <;> rfl) w.store).symm

theorem move_node_scoped (u : Nat) (w : VfsState) (po pn : String) (now : Nat) :
    (move_node w u po pn now).1.store.filter (fun r => !(r.owner == u)) =
      w.store.filter (fun r => !(r.owner == u)) ∧
    move_node (restrictOwner u w) u po pn now =
      (restrictOwner u (move_node w u po pn now).1, (move_node w u po pn now).2) := by
  unfold move_node restrictOwner
  dsimp only
  rw [get_path_id_filter_owner]
  cases hpid : get_path_id w.store u po with
  | none => exact ⟨rfl, rfl⟩
  | some nid =>
    dsimp only
    cases hl : (pathComponentsOf pn).getLast? with
    | none => exact ⟨rfl, rfl⟩
    | some newName =>
      dsimp only
      by_cases hdd : newName = ".."
      · simp only [if_pos hdd]
        constructor <;> trivial
      · simp only [if_neg hdd]
        rw [getPathIdAux_filter_owner]
        constructor
        · apply filter_map_id_of_other
          · intro x; split <;> rfl
          · intro x hx hqx
            have hcond : ¬ (x.id == nid && x.owner == u) = true := by
              simp only [Bool.and_eq_true, beq_iff_eq, not_and]
              intro _ hxo
              rw [hxo] at hqx
              simp at hqx
            rw [if_neg hcond]
        · simp only [Prod.mk.injEq, VfsState.mk.injEq]
          refine ⟨⟨?_, trivial⟩, trivial⟩
          exact (map_filter_comm _ _ (fun x => by split <;> rfl) w.store).symm

theorem create_node_scoped (u : Nat) (w : VfsState)
    (p t : String) (freshId : Nat) (freshBlob : String) :
    (create_node w u p t freshId freshBlob).1.store.filter (fun r => !(r.owner == u)) =
      w.store.filter (fun r => !(r.owner == u)) ∧
    create_node (restrictOwner u w) u p t freshId freshBlob =
      (restrictOwner u (create_node w u p t freshId freshBlob).1,
        (create_node w u p t freshId freshBlob).2) := by
  unfold create_node restrictOwner
  dsimp only
  cases hl : (pathComponentsOf p).getLast? with
  | none => exact ⟨rfl, rfl⟩
  | some nm =>
    dsimp only
    by_cases hdd : nm = ".."
    · simp only [if_pos hdd]
      constructor <;> trivial
    · simp only [if_neg hdd]
      rw [getPathIdAux_filter_owner]
      constructor
      · rw [List.filter_append]
        simp
      · simp only [Prod.mk.injEq, VfsState.mk.injEq]
        refine ⟨⟨?_, trivial⟩, trivial⟩
        rw [List.filter_append]
        simp

theorem restore_node_scoped (u : Nat) (w : VfsState) (hd : distinctIds w.store)
    (nid : Nat) :
    (restore_node w u nid).1.store.filter (fun r => !(r.owner == u)) =
      w.store.filter (fun r => !(r.owner == u)) ∧
    restore_node (restrictOwner u w) u nid =
      (restrictOwner u (restore_node w u nid).1, (restore_node w u nid).2) := by
  unfold restore_node restrictOwner
  dsimp only
  rw [find?_filter_of_imp _ _
    (fun x hx => by
      simp only [Bool.and_eq_true] at hx
      exact hx.2) w.store]
  cases hfind : w.store.find? (fun x => x.id == nid && x.owner == u) with
  | none => exact ⟨rfl, rfl⟩
  | some r =>
    dsimp only
    have hr : r ∈ w.store := List.mem_of_find?_eq_some hfind
    have hp := List.find?_some hfind
    simp only [Bool.and_eq_true, beq_iff_eq] at hp
    constructor
    · apply filter_map_id_of_other
      · intro x; split <;> rfl
      · intro x hx hqx
        have hcond : ¬ (x.id == nid) = true := by
          simp only [beq_iff_eq]
          intro hxe
          have hxr : x = r := row_eq_of_id hd hx hr (by rw [hxe, hp.1])
          rw [hxr] at hqx
          simp [hp.2] at hqx
        rw [if_neg hcond]
    · simp only [Prod.mk.injEq, VfsState.mk.injEq]
      refine ⟨⟨?_, trivial⟩, trivial⟩
      exact (map_filter_comm _ _ (fun x => by split <;> rfl) w.store).symm

theorem permanently_delete_node_scoped (u : Nat) (w : VfsState) (hd : distinctIds w.store)
    (nid : Nat) :
    (permanently_delete_node w u nid).1.store.filter (fun r => !(r.owner == u)) =
      w.store.filter (fun r => !(r.owner == u)) ∧
    permanently_delete_node (restrictOwner u w) u nid =
      (restrictOwner u (permanently_delete_node w u nid).1,
        (permanently_delete_node w u nid).2) := by
  unfold permanently_delete_node restrictOwner
  dsimp only
  rw [find?_filter_of_imp _ _
    (fun x hx => by
      simp only [Bool.and_eq_true] at hx
      exact hx.1.2) w.store]
  cases hfind : w.store.find? (fun x => x.id == nid && x.owner == u && x.isTrashed) with
  | none => exact ⟨rfl, rfl⟩
  | some r =>
    dsimp only
    have hr : r ∈ w.store := List.mem_of_find?_eq_some hfind
    have hp := List.find?_some hfind
    simp only [Bool.and_eq_true, beq_iff_eq] at hp
    constructor
    · apply filter_filter_of_imp
      intro x hx hqx
      have hcond : x.id ≠ nid := by
        intro hxe
        have hxr : x = r := row_eq_of_id hd hx hr (by rw [hxe, hp.1.1])
        rw [hxr] at hqx
        simp [hp.1.2] at hqx
      simp [hcond]
    · simp only [Prod.mk.injEq, VfsState.mk.injEq]
      refine ⟨⟨?_, trivial⟩, trivial⟩
      exact (filter_swap _ _ w.store).symm

theorem emptyTrash_fold_restrict (u : Nat) :
    ∀ (ts : List FileRow) (st : VfsState),
      ts.foldl emptyTrashStep ⟨st.store.filter (fun r => r.owner == u), st.disk⟩ =
        ⟨(ts.foldl emptyTrashStep st).store.filter (fun r => r.owner == u),
          (ts.foldl emptyTrashStep st).disk⟩
  | [], st => rfl
  | r :: ts, st => by
    rw [List.foldl_cons, List.foldl_cons]
    have hstep : emptyTrashStep ⟨st.store.filter (fun q => q.owner == u), st.disk⟩ r =
        ⟨(emptyTrashStep st r).store.filter (fun q => q.owner == u),
          (emptyTrashStep st r).disk⟩ := by
      unfold emptyTrashStep
      dsimp only
      rw [filter_swap]
    rw [hstep]
    exact emptyTrash_fold_restrict u ts (emptyTrashStep st r)

theorem emptyTrash_fold_frame (u : Nat) (s : Store) (hd : distinctIds s) :
    ∀ (ts : List FileRow) (st : VfsState), st.store.Sublist s →
      (∀ r ∈ ts, r ∈ s ∧ r.owner = u) →
      (ts.foldl emptyTrashStep st).store.filter (fun x => !(x.owner == u)) =
        st.store.filter (fun x => !(x.owner == u))
  | [], _, _, _ => rfl
  | r :: ts, st, hsub, hts => by
    rw [List.foldl_cons]
    have hstep : (emptyTrashStep st r).store.filter (fun x => !(x.owner == u)) =
        st.store.filter (fun x => !(x.owner == u)) := by
      unfold emptyTrashStep
      dsimp only
      apply filter_filter_of_imp
      intro x hx hqx
      have hxs : x ∈ s := hsub.subset hx
      have hcond : x.id ≠ r.id := by
        intro hxe
        have hxr : x = r := row_eq_of_id hd hxs (hts r (by simp)).1 hxe
        rw [hxr] at hqx
        simp [(hts r (by simp)).2] at hqx
      simp [hcond]
    have hrec := emptyTrash_fold_frame u s hd ts (emptyTrashStep st r)
      ((List.filter_sublist st.store).trans hsub)
      (fun x hx => hts x (by simp [hx]))
    rw [hrec, hstep]

theorem empty_trash_scoped (u : Nat) (w : VfsState) (hd : distinctIds w.store) :
    (empty_trash w u).1.store.filter (fun r => !(r.owner == u)) =
      w.store.filter (fun r => !(r.owner == u)) ∧
    empty_trash (restrictOwner u w) u =
      (restrictOwner u (empty_trash w u).1, (empty_trash w u).2) := by
  unfold empty_trash restrictOwner
  dsimp only
  rw [filter_filter_of_imp _ _ w.store
    (fun x _ hx => by
      simp only [Bool.and_eq_true] at hx
      exact hx.1)]
  constructor
  · exact emptyTrash_fold_frame u w.store hd _ w (List.Sublist.refl _)
      (fun r hr => ⟨(List.mem_filter.mp hr).1, by
        have := (List.mem_filter.mp hr).2
        simp only [Bool.and_eq_true, beq_iff_eq] at this
        exact this.1⟩)
  · simp only [Prod.mk.injEq]
    refine ⟨?_, trivial⟩
    exact emptyTrash_fold_restrict u
      (w.store.filter (fun r => r.owner == u && r.isTrashed)) w

/-- C9: with globally unique row ids (the primary key), every VFS
operation invoked for user `u` touches only `u`'s rows: (a) the rows of
every other user are exactly unchanged, and (b) running the operation on
the store restricted to `u`'s rows produces the same output and the same
`u`-rows — the owner-scoped lookups gate even the `UPDATE`/`DELETE`
statements of restore and permanentlyDelete that omit the owner filter. -/
theorem c9_vfs_owner_scoped (op : VfsOp) (u now freshId : Nat) (freshBlob : String)
    (w : VfsState) (hd : distinctIds w.store) :
    (applyVfsOp u now freshId freshBlob w op).1.store.filter (fun r => !(r.owner == u)) =
      w.store.filter (fun r => !(r.owner == u)) ∧
    applyVfsOp u now freshId freshBlob (restrictOwner u w) op =
      (restrictOwner u (applyVfsOp u now freshId freshBlob w op).1,
        (applyVfsOp u now freshId freshBlob w op).2) := by
  cases op with
  | list p =>
    refine ⟨rfl, ?_⟩
    simp only [applyVfsOp]
    rw [list_directory_restrict]
  | read p =>
    refine ⟨rfl, ?_⟩
    simp only [applyVfsOp]
    rw [read_file_content_restrict]
  | listTrash =>
    refine ⟨rfl, ?_⟩
    simp only [applyVfsOp]
    rw [list_trash_restrict]
  | write p c =>
    obtain ⟨hframe, hsim⟩ := write_file_content_scoped u w hd p c now
    constructor
    · simpa [applyVfsOp] using hframe
    · simp only [applyVfsOp]
      rw [hsim]
  | create p t =>
    obtain ⟨hframe, hsim⟩ := create_node_scoped u w p t freshId freshBlob
    constructor
    · simpa [applyVfsOp] using hframe
    · simp only [applyVfsOp]
      rw [hsim]
  | move po pn =>
    obtain ⟨hframe, hsim⟩ := move_node_scoped u w po pn now
    constructor
    · simpa [applyVfsOp] using hframe
    · simp only [applyVfsOp]
      rw [hsim]
  | trash p =>
    obtain ⟨hframe, hsim⟩ := trash_node_scoped u w p now
    constructor
    · simpa [applyVfsOp] using hframe
    · simp only [applyVfsOp]
      rw [hsim]
  | restore i =>
    obtain ⟨hframe, hsim⟩ := restore_node_scoped u w hd i
    constructor
    · simpa [applyVfsOp] using hframe
    · simp only [applyVfsOp]
      rw [hsim]
  | delete i =>
    obtain ⟨hframe, hsim⟩ := permanently_delete_node_scoped u w hd i
    constructor
    · simpa [applyVfsOp] using hframe
    · simp only [applyVfsOp]
      rw [hsim]
  | emptyTrash =>
    obtain ⟨hframe, hsim⟩ := empty_trash_scoped u w hd
    constructor
    · simpa [applyVfsOp] using hframe
    · simp only [applyVfsOp]
      rw [hsim]

theorem c9_vfs_owner_scoped_witness :
    distinctIds [⟨3, 1, none, "a", "dir", none, "/a", 0, 0, false, none⟩,
        ⟨4, 2, none, "b", "dir", none, "/b", 0, 0, false, none⟩] ∧
      ((applyVfsOp 1 5 9 "nb"
          ⟨[⟨3, 1, none, "a", "dir", none, "/a", 0, 0, false, none⟩,
            ⟨4, 2, none, "b", "dir", none, "/b", 0, 0, false, none⟩], []⟩
          (.trash "/a")).1.store.filter (fun r => !(r.owner == 1)) =
        ([⟨3, 1, none, "a", "dir", none, "/a", 0, 0, false, none⟩,
          ⟨4, 2, none, "b", "dir", none, "/b", 0, 0, false, none⟩] : Store).filter
          (fun r => !(r.owner == 1)) ∧
      applyVfsOp 1 5 9 "nb"
          (restrictOwner 1
            ⟨[⟨3, 1, none, "a", "dir", none, "/a", 0, 0, false, none⟩,
              ⟨4, 2, none, "b", "dir", none, "/b", 0, 0, false, none⟩], []⟩)
          (.trash "/a") =
        (restrictOwner 1 (applyVfsOp 1 5 9 "nb"
            ⟨[⟨3, 1, none, "a", "dir", none, "/a", 0, 0, false, none⟩,
              ⟨4, 2, none, "b", "dir", none, "/b", 0, 0, false, none⟩], []⟩
            (.trash "/a")).1,
          (applyVfsOp 1 5 9 "nb"
            ⟨[⟨3, 1, none, "a", "dir", none, "/a", 0, 0, false, none⟩,
              ⟨4, 2, none, "b", "dir", none, "/b", 0, 0, false, none⟩], []⟩
            (.trash "/a")).2)) :=
  ⟨by decide,
    c9_vfs_owner_scoped (.trash "/a") 1 5 9 "nb"
      ⟨[⟨3, 1, none, "a", "dir", none, "/a", 0, 0, false, none⟩,
        ⟨4, 2, none, "b", "dir", none, "/b", 0, 0, false, none⟩], []⟩ (by decide)⟩

/-- C10: `restore(id)` never checks `is_trashed`: for every row of the
caller with the requested id — trashed or not — the call succeeds, clears
`is_trashed`/`trashed_at` (the `UPDATE` filters on id alone), returns the
row's `original_path`, and the client receives a success response followed
by a `vfsUpdate` push for that path; when the caller owns no row with that
id the owner-scoped `fetch_one` fails and a single error response is
sent. -/
theorem c10_restore_no_trash_check (env : SessionEnv) (st : SessionState) (w : VfsState)
    (user : UserInfo) (hu : st.user = some user) (rid : String) (nid : Nat)
    (hd : distinctIds w.store) :
    (∀ r ∈ w.store, r.id = nid → r.owner = user.id →
      restore_node w user.id nid =
        (⟨w.store.map (fun q => if q.id == nid then
            { q with isTrashed := false, trashedAt := none } else q), w.disk⟩,
          .ok r.originalPath) ∧
      handle_client_message env st w (.text (.ok ⟨rid, .vfsRestoreNode nid⟩)) =
        ⟨st, ⟨w.store.map (fun q => if q.id == nid then
            { q with isTrashed := false, trashedAt := none } else q), w.disk⟩,
          [.response rid .success, .push (.vfsUpdate r.originalPath)], [], false⟩) ∧
    ((∀ r ∈ w.store, ¬(r.id = nid ∧ r.owner = user.id)) →
      restore_node w user.id nid = (w, .error sqlxNoRows) ∧
      handle_client_message env st w (.text (.ok ⟨rid, .vfsRestoreNode nid⟩)) =
        ⟨st, w, [.response rid (.error sqlxNoRows)], [], false⟩) := by
  constructor
  · intro r hr hid how
    have hfind : w.store.find? (fun x => x.id == nid && x.owner == user.id) = some r :=
      find_by_id w.store hd r hr _ (by simp [hid, how])
        (fun x _ hpx => by
          simp only [Bool.and_eq_true, beq_iff_eq] at hpx
          rw [hpx.1, hid])
    have hres : restore_node w user.id nid =
        (⟨w.store.map (fun q => if q.id == nid then
            { q with isTrashed := false, trashedAt := none } else q), w.disk⟩,
          .ok r.originalPath) := by
      unfold restore_node
      rw [hfind]
    exact ⟨hres, by simp [handle_client_message, handle_authenticated_request, hu, hres]⟩
  · intro hnone
    have hfind : w.store.find? (fun x => x.id == nid && x.owner == user.id) = none := by
      rw [List.find?_eq_none]
      intro x hx hcontra
      simp only [Bool.and_eq_true, beq_iff_eq] at hcontra
      exact hnone x hx ⟨hcontra.1, hcontra.2⟩
    have hres : restore_node w user.id nid = (w, .error sqlxNoRows) := by
      unfold restore_node
      rw [hfind]
    exact ⟨hres, by simp [handle_client_message, handle_authenticated_request, hu, hres]⟩

theorem c10_restore_no_trash_check_witness :
    ((⟨some ⟨1, "guest", "Admin"⟩, "/"⟩ : SessionState).user = some ⟨1, "guest", "Admin"⟩) ∧
      distinctIds [⟨5, 1, none, "x", "file", some "bl5", "/x", 7, 0, false, none⟩] ∧
      ((∀ r ∈ ([⟨5, 1, none, "x", "file", some "bl5", "/x", 7, 0, false, none⟩] : Store),
        r.id = 5 → r.owner = 1 →
        restore_node ⟨[⟨5, 1, none, "x", "file", some "bl5", "/x", 7, 0, false, none⟩], []⟩
            1 5 =
          (⟨[⟨5, 1, none, "x", "file", some "bl5", "/x", 7, 0, false, none⟩].map
              (fun q => if q.id == 5 then
                { q with isTrashed := false, trashedAt := none } else q), []⟩,
            .ok r.originalPath) ∧
        handle_client_message ⟨(fun _ _ => none), true, 0, 9, "b"⟩
            ⟨some ⟨1, "guest", "Admin"⟩, "/"⟩
            ⟨[⟨5, 1, none, "x", "file", some "bl5", "/x", 7, 0, false, none⟩], []⟩
            (.text (.ok ⟨"4", .vfsRestoreNode 5⟩)) =
          ⟨⟨some ⟨1, "guest", "Admin"⟩, "/"⟩,
            ⟨[⟨5, 1, none, "x", "file", some "bl5", "/x", 7, 0, false, none⟩].map
              (fun q => if q.id == 5 then
                { q with isTrashed := false, trashedAt := none } else q), []⟩,
            [.response "4" .success, .push (.vfsUpdate r.originalPath)], [], false⟩) ∧
      ((∀ r ∈ ([⟨5, 1, none, "x", "file", some "bl5", "/x", 7, 0, false, none⟩] : Store),
          ¬(r.id = 5 ∧ r.owner = 1)) →
        restore_node ⟨[⟨5, 1, none, "x", "file", some "bl5", "/x", 7, 0, false, none⟩], []⟩
            1 5 =
          (⟨[⟨5, 1, none, "x", "file", some "bl5", "/x", 7, 0, false, none⟩], []⟩,
            .error sqlxNoRows) ∧
        handle_client_message ⟨(fun _ _ => none), true, 0, 9, "b"⟩
            ⟨some ⟨1, "guest", "Admin"⟩, "/"⟩
            ⟨[⟨5, 1, none, "x", "file", some "bl5", "/x", 7, 0, false, none⟩], []⟩
            (.text (.ok ⟨"4", .vfsRestoreNode 5⟩)) =
          ⟨⟨some ⟨1, "guest", "Admin"⟩, "/"⟩,
            ⟨[⟨5, 1, none, "x", "file", some "bl5", "/x", 7, 0, false, none⟩], []⟩,
            [.response "4" (.error sqlxNoRows)], [], false⟩)) :=
  ⟨rfl, by decide,
    c10_restore_no_trash_check ⟨(fun _ _ => none), true, 0, 9, "b"⟩
      ⟨some ⟨1, "guest", "Admin"⟩, "/"⟩
      ⟨[⟨5, 1, none, "x", "file", some "bl5", "/x", 7, 0, false, none⟩], []⟩
      ⟨1, "guest", "Admin"⟩ rfl "4" 5 (by decide)⟩

/-- C8: a text frame whose body fails to decode yields exactly one error
response with the literal request id `"unknown"` (carrying the decoder's
message), the state and VFS are untouched, nothing goes to the PTY, and
the session is not closed. -/
theorem c8_decode_failure_unknown_id (env : SessionEnv) (st : SessionState) (w : VfsState)
    (e : String) :
    handle_client_message env st w (.text (.error e)) =
      ⟨st, w, [.response "unknown" (.error ("Invalid request format: " ++ e))], [], false⟩ :=
  rfl

theorem c3_pty_chunk_all_or_nothing_witness :
    (∀ c ∈ [104, 105], ScalarValue c) ∧ utf8Decode [255] = none ∧
      (ptyChunkOutput (utf8Encode [104, 105]) = some [104, 105] ∧
        ptyChunkOutput [255] = none) :=
  ⟨by decide, by decide, c3_pty_chunk_all_or_nothing [104, 105] (by decide) [255] (by decide)⟩

end Obpi
